import Mathlib

/-!
Verification of the fixed-capacity hash table of `src/ex1/fixed_hash_table.py`
(class `FixedHashTable`): open addressing with linear probing, tombstone
deletion, and an intrusive doubly linked recency list over occupied slots.

The embedding is a faithful shallow translation of the Python class:
* `Table` mirrors the object's fields (`capacity`, `keys`, `vals`, `state`,
  `prev`, `next`, `head`, `tail`, `size`).
* `probeAux` mirrors the `while True` loop of `_probe` literally, with an
  explicit fuel argument standing for the number of loop iterations still
  allowed; `none` means the fuel ran out before a `return` was reached.
  `Table.probe` runs the loop with `capacity` fuel, which is proved
  sufficient (`probeAux_bridge`).
* Python's per-run salted `hash` is modelled by an arbitrary function
  `hf : String → Nat`; `Table.idx` applies the source's mask and modulus.
* The mutating methods return the post-state of the object together with an
  optional error, mirroring the fact that the Python methods raise their
  exceptions before performing any mutation.
-/

set_option maxHeartbeats 1000000

/-- Tri-state slot marker of the slot store (`EMPTY`, `OCCUPIED`, `DELETED`
constants of the Python class). -/
inductive SlotState where
  | EMPTY
  | OCCUPIED
  | DELETED
deriving DecidableEq

/-- The fields of a `FixedHashTable` object.  `size` is an integer (Python
ints are unbounded and signed); all other fields are as in the source. -/
structure Table where
  capacity : Nat
  keys : List (Option String)
  vals : List (Option Int)
  state : List SlotState
  prev : List (Option Nat)
  next : List (Option Nat)
  head : Option Nat
  tail : Option Nat
  size : Int
deriving DecidableEq

/-- The error taxonomy of the spec: `ValueError` at construction is
`invalidArgument`, `RuntimeError` of a full table is `tableFull`,
`KeyError key` is `keyNotFound` and `KeyError "empty"` is `emptyTable`. -/
inductive TableError where
  | invalidArgument
  | tableFull
  | keyNotFound
  | emptyTable
deriving DecidableEq

/-- `_idx`: `(hash(key) & 0x7FFFFFFF) % self.capacity`, with the salted
`hash` abstracted into the parameter `hf`. -/
def Table.idx (hf : String → Nat) (t : Table) (key : String) : Nat :=
  (hf key &&& 0x7FFFFFFF) % t.capacity

/-- The body of `_probe`'s `while True` loop.  One unit of fuel is one loop
iteration; the result is `none` if the fuel is exhausted before a `return`
statement fires (which never happens with `capacity` fuel, see
`probeAux_bridge`).  The three `return`s of the source are the three `some`
results. -/
def probeAux (t : Table) (key : String) (start : Nat) :
    Nat → Nat → Option Nat → Option (Option Nat × Option Nat)
  | 0, _, _ => none
  | fuel + 1, i, firstTombstone =>
    match t.state.getD i SlotState.EMPTY with
    | SlotState.EMPTY => some (none, some (firstTombstone.getD i))
    | SlotState.OCCUPIED =>
      if t.keys.getD i none = some key then
        some (some i, none)
      else
        let i2 := if i + 1 = t.capacity then 0 else i + 1
        if i2 = start then some (none, firstTombstone)
        else probeAux t key start fuel i2 firstTombstone
    | SlotState.DELETED =>
      let ft2 := if firstTombstone = none then some i else firstTombstone
      let i2 := if i + 1 = t.capacity then 0 else i + 1
      if i2 = start then some (none, ft2)
      else probeAux t key start fuel i2 ft2

/-- Number of loop iterations the probe performs from position `i` before
the post-increment cycle check `i == start` fires (if no earlier `return`
fires): the distance from `i` forward to `start`, or a full cycle when
`i = start`. -/
def stepsTo (cap start i : Nat) : Nat :=
  if i < start then start - i else start + cap - i

/-- The probe loop re-expressed as a structural scan of the explicit list of
slot indices it visits.  Same case analysis as `probeAux`, without the
cycle-detection bookkeeping. -/
def specLoop (t : Table) (key : String) : List Nat → Option Nat → Option Nat × Option Nat
  | [], firstTombstone => (none, firstTombstone)
  | i :: rest, firstTombstone =>
    match t.state.getD i SlotState.EMPTY with
    | SlotState.EMPTY => (none, some (firstTombstone.getD i))
    | SlotState.OCCUPIED =>
      if t.keys.getD i none = some key then (some i, none)
      else specLoop t key rest firstTombstone
    | SlotState.DELETED =>
      specLoop t key rest (if firstTombstone = none then some i else firstTombstone)

/-- The `n` slot indices visited starting at `i` and advancing by +1 mod `cap`. -/
def pathFrom (cap i n : Nat) : List Nat :=
  (List.range n).map (fun j => (i + j) % cap)

/-- The full probe sequence for start index `start`: every slot once,
starting at `start` and wrapping around. -/
def probePath (t : Table) (start : Nat) : List Nat :=
  pathFrom t.capacity start t.capacity

lemma stepsTo_pos (cap start i : Nat) (hi : i < cap) : 0 < stepsTo cap start i := by
  unfold stepsTo; split <;> omega

lemma stepsTo_self (cap start : Nat) : stepsTo cap start start = cap := by
  unfold stepsTo; split <;> omega

lemma stepsTo_succ (cap start i : Nat) (hi : i < cap) (hs : start < cap)
    (hne : (if i + 1 = cap then 0 else i + 1) ≠ start) :
    stepsTo cap start (if i + 1 = cap then 0 else i + 1) + 1 = stepsTo cap start i := by
  unfold stepsTo
  split_ifs at hne ⊢ <;> omega

lemma stepsTo_eq_one (cap start i : Nat) (hi : i < cap) (hs : start < cap)
    (heq : (if i + 1 = cap then 0 else i + 1) = start) :
    stepsTo cap start i = 1 := by
  unfold stepsTo
  split_ifs at heq ⊢ <;> omega

lemma succWrap_lt (cap i : Nat) (hi : i < cap) (hc : 0 < cap) :
    (if i + 1 = cap then 0 else i + 1) < cap := by
  split <;> omega

lemma pathFrom_zero (cap i : Nat) : pathFrom cap i 0 = [] := rfl

lemma pathFrom_succ (cap i n : Nat) (hi : i < cap) :
    pathFrom cap i (n + 1) = i :: pathFrom cap (if i + 1 = cap then 0 else i + 1) n := by
  unfold pathFrom
  rw [List.range_succ_eq_map]
  simp only [List.map_cons, List.map_map, Nat.add_zero]
  refine congrArg₂ _ (Nat.mod_eq_of_lt hi) (List.map_congr_left ?_)
  intro j _
  simp only [Function.comp_apply]
  by_cases h : i + 1 = cap
  · simp only [if_pos h]
    have : i + (j + 1) = cap + j := by omega
    rw [this, Nat.add_mod_left, Nat.zero_add]
  · simp only [if_neg h]
    have : i + (j + 1) = (i + 1) + j := by omega
    rw [this]

/-- Core bridge: as soon as the fuel covers the remaining distance to the
cycle check, the loop returns (no fuel exhaustion) and its result is the
structural scan of exactly the slots between `i` and `start`.  In
particular the result does not depend on any extra fuel: the loop stops
the instant the advancing index returns to `start`. -/
lemma probeAux_bridge (t : Table) (key : String) (start : Nat) (hs : start < t.capacity) :
    ∀ fuel i ft, i < t.capacity → stepsTo t.capacity start i ≤ fuel →
      probeAux t key start fuel i ft =
        some (specLoop t key (pathFrom t.capacity i (stepsTo t.capacity start i)) ft) := by
  intro fuel
  induction fuel with
  | zero =>
    intro i ft hi hle
    exact absurd hle (by have := stepsTo_pos t.capacity start i hi; omega)
  | succ n ih =>
    intro i ft hi hle
    obtain ⟨m, hm⟩ : ∃ m, stepsTo t.capacity start i = m + 1 :=
      ⟨stepsTo t.capacity start i - 1, by have := stepsTo_pos t.capacity start i hi; omega⟩
    rw [hm, pathFrom_succ t.capacity i m hi]
    have hc : 0 < t.capacity := by omega
    simp only [probeAux, specLoop]
    cases hstate : t.state.getD i SlotState.EMPTY with
    | EMPTY => rfl
    | OCCUPIED =>
      by_cases hkey : t.keys.getD i none = some key
      · simp only [if_pos hkey]
      · simp only [if_neg hkey]
        by_cases hstep : (if i + 1 = t.capacity then 0 else i + 1) = start
        · have h1 : stepsTo t.capacity start i = 1 :=
            stepsTo_eq_one t.capacity start i hi hs hstep
          have hm0 : m = 0 := by omega
          subst hm0
          simp only [if_pos hstep, pathFrom_zero, specLoop]
        · have hdec := stepsTo_succ t.capacity start i hi hs hstep
          have hlt2 : (if i + 1 = t.capacity then 0 else i + 1) < t.capacity :=
            succWrap_lt t.capacity i hi hc
          have hm2 : stepsTo t.capacity start (if i + 1 = t.capacity then 0 else i + 1) = m := by
            omega
          simp only [if_neg hstep]
          rw [ih _ ft hlt2 (by omega), hm2]
    | DELETED =>
      by_cases hstep : (if i + 1 = t.capacity then 0 else i + 1) = start
      · have h1 : stepsTo t.capacity start i = 1 :=
          stepsTo_eq_one t.capacity start i hi hs hstep
        have hm0 : m = 0 := by omega
        subst hm0
        simp only [if_pos hstep, pathFrom_zero, specLoop]
      · have hdec := stepsTo_succ t.capacity start i hi hs hstep
        have hlt2 : (if i + 1 = t.capacity then 0 else i + 1) < t.capacity :=
          succWrap_lt t.capacity i hi hc
        have hm2 : stepsTo t.capacity start (if i + 1 = t.capacity then 0 else i + 1) = m := by
          omega
        simp only [if_neg hstep]
        rw [ih _ _ hlt2 (by omega), hm2]

/-- Running the loop from `start` with at least `capacity` fuel terminates
with the structural scan of the full probe sequence. -/
lemma probeAux_run (t : Table) (key : String) (start : Nat) (hs : start < t.capacity)
    (fuel : Nat) (hf : t.capacity ≤ fuel) :
    probeAux t key start fuel start none =
      some (specLoop t key (probePath t start) none) := by
  have h := probeAux_bridge t key start hs fuel start none hs
    (by rw [stepsTo_self]; exact hf)
  rw [h, stepsTo_self]
  rfl

lemma opt_get_eq {α : Type} (o : Option α) (h : o.isSome) (a : α) (ha : o = some a) :
    o.get h = a := by subst ha; rfl

lemma Table.idx_lt (hf : String → Nat) (t : Table) (key : String) (hcap : 0 < t.capacity) :
    t.idx hf key < t.capacity :=
  Nat.mod_lt _ hcap

/-- `_probe`: run the loop with `capacity` fuel (proved sufficient) from
`_idx key`, with no tombstone recorded yet. -/
def Table.probe (hf : String → Nat) (t : Table) (key : String) (hcap : 0 < t.capacity) :
    Option Nat × Option Nat :=
  (probeAux t key (t.idx hf key) t.capacity (t.idx hf key) none).get (by
    rw [probeAux_run t key (t.idx hf key) (t.idx_lt hf key hcap) t.capacity (Nat.le_refl _)]
    rfl)

lemma probe_eq_specLoop (hf : String → Nat) (t : Table) (key : String)
    (hcap : 0 < t.capacity) :
    t.probe hf key hcap = specLoop t key (probePath t (t.idx hf key)) none :=
  opt_get_eq _ _ _
    (probeAux_run t key (t.idx hf key) (t.idx_lt hf key hcap) t.capacity (Nat.le_refl _))

/-- `_link_to_head`: insert node `i` at the head of the recency list,
following the statement order of the source. -/
def Table.linkToHead (t : Table) (i : Nat) : Table :=
  let t1 := { t with prev := t.prev.set i none, next := t.next.set i t.head }
  let t2 := match t1.head with
    | some hd => { t1 with prev := t1.prev.set hd (some i) }
    | none => t1
  let t3 := { t2 with head := some i }
  if t3.tail = none then { t3 with tail := some i } else t3

/-- `_unlink`: splice node `i` out of the recency list. -/
def Table.unlink (t : Table) (i : Nat) : Table :=
  let p := t.prev.getD i none
  let n := t.next.getD i none
  let t1 := match p with
    | some pi => { t with next := t.next.set pi n }
    | none => { t with head := n }
  let t2 := match n with
    | some ni => { t1 with prev := t1.prev.set ni p }
    | none => { t1 with tail := p }
  { t2 with prev := t2.prev.set i none, next := t2.next.set i none }

/-- `_move_to_head`: no-op when `i` is already the head, else unlink and
relink at the head. -/
def Table.moveToHead (t : Table) (i : Nat) : Table :=
  if t.head = some i then t else (t.unlink i).linkToHead i

/-- `insert`: probe, then either overwrite the found slot's value and move
it to the recency head, or occupy the probe's insertion slot, or raise
`tableFull`.  The returned table is the object's state after the call
(unchanged when the error is raised, since the source raises before any
mutation). -/
def Table.insert (hf : String → Nat) (t : Table) (key : String) (value : Int)
    (hcap : 0 < t.capacity) : Table × Option TableError :=
  match t.probe hf key hcap with
  | (some fi, _) =>
    let t1 := { t with vals := t.vals.set fi (some value) }
    (t1.moveToHead fi, none)
  | (none, some ii) =>
    let t1 := { t with keys := t.keys.set ii (some key),
                       vals := t.vals.set ii (some value),
                       state := t.state.set ii SlotState.OCCUPIED }
    let t2 := t1.linkToHead ii
    ({ t2 with size := t2.size + 1 }, none)
  | (none, none) => (t, some TableError.tableFull)

/-- `get`: probe and read the value; never mutates, so the post-state is the
argument itself. -/
def Table.get (hf : String → Nat) (t : Table) (key : String) (hcap : 0 < t.capacity) :
    Table × Except TableError (Option Int) :=
  match (t.probe hf key hcap).1 with
  | none => (t, Except.error TableError.keyNotFound)
  | some fi => (t, Except.ok (t.vals.getD fi none))

/-- `remove`: probe, unlink the found slot, turn it into a tombstone and
clear its key/value. -/
def Table.remove (hf : String → Nat) (t : Table) (key : String) (hcap : 0 < t.capacity) :
    Table × Option TableError :=
  match (t.probe hf key hcap).1 with
  | none => (t, some TableError.keyNotFound)
  | some fi =>
    let t1 := t.unlink fi
    ({ t1 with keys := t1.keys.set fi none,
               vals := t1.vals.set fi none,
               state := t1.state.set fi SlotState.DELETED,
               size := t1.size - 1 }, none)

/-- `get_last`: the key/value pair at the recency head (most recent). -/
def Table.get_last (t : Table) : Except TableError (Option String × Option Int) :=
  match t.head with
  | none => Except.error TableError.emptyTable
  | some i => Except.ok (t.keys.getD i none, t.vals.getD i none)

/-- `get_first`: the key/value pair at the recency tail (least recent). -/
def Table.get_first (t : Table) : Except TableError (Option String × Option Int) :=
  match t.tail with
  | none => Except.error TableError.emptyTable
  | some i => Except.ok (t.keys.getD i none, t.vals.getD i none)

/-- `items`: the occupied key/value pairs in raw slot order. -/
def Table.items (t : Table) : List (Option String × Option Int) :=
  (List.range t.capacity).filterMap (fun i =>
    if t.state.getD i SlotState.EMPTY = SlotState.OCCUPIED
    then some (t.keys.getD i none, t.vals.getD i none) else none)

/-- `__init__`: fail on non-positive capacity, else allocate the parallel
arrays, empty recency list, size 0. -/
def mkTable (capacity : Int) : Except TableError Table :=
  if capacity ≤ 0 then Except.error TableError.invalidArgument
  else Except.ok
    { capacity := capacity.toNat
      keys := List.replicate capacity.toNat none
      vals := List.replicate capacity.toNat none
      state := List.replicate capacity.toNat SlotState.EMPTY
      prev := List.replicate capacity.toNat none
      next := List.replicate capacity.toNat none
      head := none
      tail := none
      size := 0 }

/-- Representation well-formedness: positive capacity and all five parallel
arrays of length `capacity` (guaranteed by the constructor, maintained by
every method since `List.set` preserves length). -/
def WF (t : Table) : Prop :=
  0 < t.capacity ∧ t.keys.length = t.capacity ∧ t.vals.length = t.capacity ∧
    t.state.length = t.capacity ∧ t.prev.length = t.capacity ∧ t.next.length = t.capacity

instance (t : Table) : Decidable (WF t) := by
  unfold WF; infer_instance

/-- Number of OCCUPIED slots. -/
def countOccupied (t : Table) : Nat :=
  t.state.countP (fun s => s == SlotState.OCCUPIED)

/-- Doubly-linked chain segment: starting with previous-node pointer `p`
and current pointer `c`, the nodes of `L` are linked in order through the
`next`/`prev` arrays `nx`/`pv`, leaving the segment with previous-node
pointer `p'` and current pointer `c'`. -/
def ChainSeg (nx pv : List (Option Nat)) :
    Option Nat → Option Nat → List Nat → Option Nat → Option Nat → Prop
  | p, c, [], p', c' => p' = p ∧ c' = c
  | p, c, i :: rest, p', c' =>
    c = some i ∧ pv.getD i none = p ∧ ChainSeg nx pv (some i) (nx.getD i none) rest p' c'

instance chainSegDec (nx pv : List (Option Nat)) :
    ∀ (L : List Nat) (p c p' c' : Option Nat), Decidable (ChainSeg nx pv p c L p' c')
  | [], _, _, _, _ => inferInstanceAs (Decidable (_ ∧ _))
  | i :: rest, p, c, p', c' =>
    have := chainSegDec nx pv rest (some i) (nx.getD i none) p' c'
    inferInstanceAs (Decidable (_ ∧ _ ∧ _))

/-- The recency list of `t` is exactly `L`, linked from `head` (most recent)
to `tail` (least recent). -/
def RecChain (t : Table) (L : List Nat) : Prop :=
  ChainSeg t.next t.prev none t.head L t.tail none

/-- The recency-list component of the data-model invariant: some list `L`
is chained from `head` to `tail`, contains exactly the OCCUPIED slot
indices, and contains no index twice. -/
def RecOk (t : Table) (L : List Nat) : Prop :=
  RecChain t L ∧
  (∀ i ∈ L, i < t.capacity ∧ t.state.getD i SlotState.EMPTY = SlotState.OCCUPIED) ∧
  (∀ i, i < t.capacity → t.state.getD i SlotState.EMPTY = SlotState.OCCUPIED → i ∈ L) ∧
  L.Nodup

instance (t : Table) (L : List Nat) : Decidable (RecOk t L) := by
  unfold RecOk RecChain; infer_instance

/-- Per-slot findability check: if slot `i` holds a key, probing for that
key finds slot `i`.  Stated through `probeAux` with `capacity` fuel so that
it is decidable. -/
def findSlotOk (hf : String → Nat) (t : Table) (i : Nat) : Prop :=
  match t.keys.getD i none with
  | none => True
  | some k =>
    probeAux t k (t.idx hf k) t.capacity (t.idx hf k) none = some (some i, none)

instance (hf : String → Nat) (t : Table) (i : Nat) : Decidable (findSlotOk hf t i) := by
  unfold findSlotOk
  cases t.keys.getD i none with
  | none => exact isTrue trivial
  | some k => exact inferInstance

/-- Findability: every OCCUPIED slot is located by a probe for its own key.
This holds in every state reachable through the public API but is not part
of the invariant list of the spec's data model. -/
def Findable (hf : String → Nat) (t : Table) : Prop :=
  ∀ i, i < t.capacity → t.state.getD i SlotState.EMPTY = SlotState.OCCUPIED →
    findSlotOk hf t i

instance (hf : String → Nat) (t : Table) : Decidable (Findable hf t) := by
  unfold Findable; exact Nat.decidableBallLT _ _

/-- The data-model invariant exactly as the spec lists it (plus the
representation well-formedness `WF` that the Python object carries
implicitly): size bounds, size = number of OCCUPIED slots, key/value
present iff OCCUPIED, each live key in exactly one slot, the recency list
contains exactly the OCCUPIED slots once each, and `head = tail = none`
iff the table is empty. -/
structure TableInv (t : Table) : Prop where
  wf : WF t
  size_nonneg : 0 ≤ t.size
  size_le : t.size ≤ (t.capacity : Int)
  size_eq : t.size = (countOccupied t : Int)
  key_iff : ∀ i, i < t.capacity →
    ((t.state.getD i SlotState.EMPTY = SlotState.OCCUPIED) ↔ (t.keys.getD i none).isSome = true)
  val_iff : ∀ i, i < t.capacity →
    ((t.state.getD i SlotState.EMPTY = SlotState.OCCUPIED) ↔ (t.vals.getD i none).isSome = true)
  uniq : ∀ i, i < t.capacity → ∀ j, j < t.capacity →
    t.state.getD i SlotState.EMPTY = SlotState.OCCUPIED →
    t.state.getD j SlotState.EMPTY = SlotState.OCCUPIED →
    t.keys.getD i none = t.keys.getD j none → i = j
  recency : ∃ L, RecOk t L
  headTail : (t.head = none ∧ t.tail = none) ↔ t.size = 0

/-- The strengthened invariant: the spec's invariant list together with
findability of every stored key.  This is the inductive invariant actually
preserved by the public operations. -/
structure TableInvF (hf : String → Nat) (t : Table) : Prop where
  inv : TableInv t
  findable : Findable hf t

lemma getD_set_self {α : Type} (l : List α) (i : Nat) (x d : α) (h : i < l.length) :
    (l.set i x).getD i d = x := by
  rw [List.getD_eq_getElem?_getD, List.getElem?_set_eq_of_lt x h]
  rfl

lemma getD_set_ne {α : Type} (l : List α) {i j : Nat} (x d : α) (h : i ≠ j) :
    (l.set i x).getD j d = l.getD j d := by
  rw [List.getD_eq_getElem?_getD, List.getElem?_set_ne h, ← List.getD_eq_getElem?_getD]

lemma countP_set (p : SlotState → Bool) :
    ∀ (l : List SlotState) (i : Nat) (x d : SlotState), i < l.length →
      (l.set i x).countP p + (if p (l.getD i d) then 1 else 0) =
        l.countP p + (if p x then 1 else 0) := by
  intro l
  induction l with
  | nil => intro i x d h; simp at h
  | cons a tl ih =>
    intro i x d h
    cases i with
    | zero =>
      simp only [List.set_cons_zero, List.countP_cons, List.getD_cons_zero]
      omega
    | succ n =>
      simp only [List.set_cons_succ, List.countP_cons, List.getD_cons_succ]
      have := ih n x d (by simpa using h)
      omega

/-- Slot `j` does not end the probe scan for `key`: it is neither EMPTY nor
an OCCUPIED slot holding `key`. -/
def noStop (t : Table) (key : String) (j : Nat) : Prop :=
  t.state.getD j SlotState.EMPTY ≠ SlotState.EMPTY ∧
  ¬(t.state.getD j SlotState.EMPTY = SlotState.OCCUPIED ∧ t.keys.getD j none = some key)

/-- Boolean stop test of the probe scan (spec §4.2: stop on EMPTY or on an
OCCUPIED slot holding the key). -/
def stopB (t : Table) (key : String) (i : Nat) : Bool :=
  (t.state.getD i SlotState.EMPTY == SlotState.EMPTY) ||
  ((t.state.getD i SlotState.EMPTY == SlotState.OCCUPIED) &&
    (t.keys.getD i none == some key))

/-- Boolean tombstone test. -/
def tombB (t : Table) (i : Nat) : Bool :=
  t.state.getD i SlotState.EMPTY == SlotState.DELETED

/-- First tombstone accumulator: keep `a` if already set, else use `b`. -/
def ftOr (a b : Option Nat) : Option Nat :=
  match a with
  | some x => some x
  | none => b

/-- Declarative probe result, following the words of spec §4.2 and claim C1:
walk the probe sequence; if the first stopping slot is an OCCUPIED match
return it as found; if it is EMPTY, the insertion slot is the first DELETED
slot seen before stopping, defaulting to the EMPTY slot itself; if no slot
stops the scan (full cycle), the insertion slot is the first DELETED slot of
the whole sequence, if any. -/
def specProbe (t : Table) (key : String) (start : Nat) : Option Nat × Option Nat :=
  let path := probePath t start
  match path.find? (stopB t key) with
  | some j =>
    if t.state.getD j SlotState.EMPTY == SlotState.OCCUPIED then (some j, none)
    else
      (none, some (((path.takeWhile (fun x => ! stopB t key x)).find? (tombB t)).getD j))
  | none => (none, path.find? (tombB t))

lemma ftOr_none_right (a : Option Nat) : ftOr a none = a := by
  cases a <;> rfl

lemma ftOr_none_left (b : Option Nat) : ftOr none b = b := rfl

lemma specLoop_congr (t₁ t₂ : Table) (key : String)
    (hstate : t₁.state = t₂.state) (hkeys : t₁.keys = t₂.keys) :
    ∀ (L : List Nat) (ft : Option Nat), specLoop t₁ key L ft = specLoop t₂ key L ft := by
  intro L
  induction L with
  | nil => intro ft; rfl
  | cons a tl ih =>
    intro ft
    simp only [specLoop, hstate, hkeys]
    cases t₂.state.getD a SlotState.EMPTY with
    | EMPTY => rfl
    | OCCUPIED =>
      by_cases hk : t₂.keys.getD a none = some key
      · simp only [if_pos hk]
      · simp only [if_neg hk, ih]
    | DELETED => simp only [ih]

lemma specLoop_skip (t : Table) (key : String) :
    ∀ (pre rest : List Nat) (ft : Option Nat), (∀ j ∈ pre, noStop t key j) →
      ∃ ft', specLoop t key (pre ++ rest) ft = specLoop t key rest ft' := by
  intro pre
  induction pre with
  | nil => intro rest ft _; exact ⟨ft, rfl⟩
  | cons a tl ih =>
    intro rest ft hns
    have ha : noStop t key a := hns a (List.mem_cons_self a tl)
    have htl : ∀ j ∈ tl, noStop t key j := fun j hj => hns j (List.mem_cons_of_mem a hj)
    simp only [List.cons_append, specLoop]
    cases hstate : t.state.getD a SlotState.EMPTY with
    | EMPTY => exact absurd hstate ha.1
    | OCCUPIED =>
      have hk : t.keys.getD a none ≠ some key := fun hk => ha.2 ⟨hstate, hk⟩
      simp only [if_neg hk]
      exact ih rest ft htl
    | DELETED => exact ih rest _ htl

lemma specLoop_found_at (t : Table) (key : String) (pre rest : List Nat) (ft : Option Nat)
    (fi : Nat) (hns : ∀ j ∈ pre, noStop t key j)
    (hocc : t.state.getD fi SlotState.EMPTY = SlotState.OCCUPIED)
    (hkey : t.keys.getD fi none = some key) :
    specLoop t key (pre ++ fi :: rest) ft = (some fi, none) := by
  obtain ⟨ft', h⟩ := specLoop_skip t key pre (fi :: rest) ft hns
  rw [h]
  simp only [specLoop, hocc, if_pos hkey]

lemma specLoop_found_ext (t : Table) (key : String) :
    ∀ (L : List Nat) (ft : Option Nat) (fi : Nat) (sn : Option Nat),
      specLoop t key L ft = (some fi, sn) →
      sn = none ∧ ∃ pre post, L = pre ++ fi :: post ∧ (∀ j ∈ pre, noStop t key j) ∧
        t.state.getD fi SlotState.EMPTY = SlotState.OCCUPIED ∧
        t.keys.getD fi none = some key := by
  intro L
  induction L with
  | nil =>
    intro ft fi sn h
    simp only [specLoop] at h
    exact absurd (congrArg Prod.fst h) (by simp)
  | cons a tl ih =>
    intro ft fi sn h
    simp only [specLoop] at h
    cases hstate : t.state.getD a SlotState.EMPTY with
    | EMPTY =>
      rw [hstate] at h
      exact absurd (congrArg Prod.fst h) (by simp)
    | OCCUPIED =>
      rw [hstate] at h
      by_cases hk : t.keys.getD a none = some key
      · rw [if_pos hk] at h
        have hfi : a = fi := by
          have := congrArg Prod.fst h
          simpa using this
        have hsn : sn = none := by
          have := congrArg Prod.snd h
          simpa using this.symm
        subst hfi
        exact ⟨hsn, [], tl, rfl, by simp, hstate, hk⟩
      · rw [if_neg hk] at h
        obtain ⟨hsn, pre, post, hL, hns, hofi, hkfi⟩ := ih ft fi sn h
        refine ⟨hsn, a :: pre, post, by simp [hL], ?_, hofi, hkfi⟩
        intro j hj
        rcases List.mem_cons.mp hj with rfl | hj
        · exact And.intro (by rw [hstate]; intro hc; cases hc) (fun hc => hk hc.2)
        · exact hns j hj
    | DELETED =>
      rw [hstate] at h
      obtain ⟨hsn, pre, post, hL, hns, hofi, hkfi⟩ := ih _ fi sn h
      refine ⟨hsn, a :: pre, post, by simp [hL], ?_, hofi, hkfi⟩
      intro j hj
      rcases List.mem_cons.mp hj with rfl | hj
      · exact And.intro (by rw [hstate]; intro hc; cases hc)
          (fun hc => by rw [hstate] at hc; cases hc.1)
      · exact hns j hj

lemma specLoop_ins_ext (t : Table) (key : String) :
    ∀ (L : List Nat) (ft : Option Nat) (ii : Nat),
      specLoop t key L ft = (none, some ii) →
      ft = some ii ∨ (ft = none ∧ ∃ pre post, L = pre ++ ii :: post ∧
        (∀ j ∈ pre, t.state.getD j SlotState.EMPTY = SlotState.OCCUPIED ∧
          t.keys.getD j none ≠ some key) ∧
        t.state.getD ii SlotState.EMPTY ≠ SlotState.OCCUPIED) := by
  intro L
  induction L with
  | nil =>
    intro ft ii h
    simp only [specLoop] at h
    exact Or.inl (by
      have := congrArg Prod.snd h
      simpa using this)
  | cons a tl ih =>
    intro ft ii h
    simp only [specLoop] at h
    cases hstate : t.state.getD a SlotState.EMPTY with
    | EMPTY =>
      rw [hstate] at h
      have h2 : ft.getD a = ii := by
        have := congrArg Prod.snd h
        simpa using this
      cases hft : ft with
      | some x =>
        left
        rw [hft] at h2
        simp only [Option.getD_some] at h2
        rw [h2]
      | none =>
        right
        rw [hft] at h2
        simp only [Option.getD_none] at h2
        subst h2
        exact ⟨rfl, [], tl, rfl, by simp, by rw [hstate]; intro hc; cases hc⟩
    | OCCUPIED =>
      rw [hstate] at h
      by_cases hk : t.keys.getD a none = some key
      · rw [if_pos hk] at h
        exact absurd (congrArg Prod.fst h) (by simp)
      · rw [if_neg hk] at h
        rcases ih ft ii h with hl | ⟨hft, pre, post, hL, hpre, hii⟩
        · exact Or.inl hl
        · refine Or.inr ⟨hft, a :: pre, post, by simp [hL], ?_, hii⟩
          intro j hj
          rcases List.mem_cons.mp hj with rfl | hj
          · exact ⟨hstate, hk⟩
          · exact hpre j hj
    | DELETED =>
      rw [hstate] at h
      rcases ih _ ii h with hl | ⟨hft, _, _, _, _, _⟩
      · cases ft with
        | some x =>
          left
          simpa using hl
        | none =>
          right
          simp only [if_pos rfl] at hl
          have : a = ii := by injection hl
          subst this
          exact ⟨rfl, [], tl, rfl, by simp, by rw [hstate]; intro hc; cases hc⟩
      · exfalso
        cases ft with
        | some x => simp at hft
        | none => simp at hft

lemma ftOr_collapse (ft : Option Nat) (a : Nat) (z : Option Nat) :
    ftOr (if ft = none then some a else ft) z = ftOr ft (some a) := by
  cases ft <;> rfl

lemma stopB_empty (t : Table) (key : String) (a : Nat)
    (h : t.state.getD a SlotState.EMPTY = SlotState.EMPTY) : stopB t key a = true := by
  unfold stopB
  rw [h]
  rfl

lemma stopB_occ_match (t : Table) (key : String) (a : Nat)
    (h : t.state.getD a SlotState.EMPTY = SlotState.OCCUPIED)
    (hk : t.keys.getD a none = some key) : stopB t key a = true := by
  unfold stopB
  rw [h, hk]
  simp

lemma stopB_occ_nomatch (t : Table) (key : String) (a : Nat)
    (h : t.state.getD a SlotState.EMPTY = SlotState.OCCUPIED)
    (hk : t.keys.getD a none ≠ some key) : stopB t key a = false := by
  unfold stopB
  rw [h, beq_eq_false_iff_ne.mpr hk]
  rfl

lemma stopB_deleted (t : Table) (key : String) (a : Nat)
    (h : t.state.getD a SlotState.EMPTY = SlotState.DELETED) : stopB t key a = false := by
  unfold stopB
  rw [h]
  rfl

lemma tombB_deleted (t : Table) (a : Nat)
    (h : t.state.getD a SlotState.EMPTY = SlotState.DELETED) : tombB t a = true := by
  unfold tombB
  rw [h]
  rfl

lemma tombB_not_deleted (t : Table) (a : Nat)
    (h : t.state.getD a SlotState.EMPTY ≠ SlotState.DELETED) : tombB t a = false := by
  unfold tombB
  exact beq_eq_false_iff_ne.mpr h

lemma specLoop_find_char (t : Table) (key : String) :
    ∀ (L : List Nat) (ft : Option Nat),
      specLoop t key L ft =
        match L.find? (stopB t key) with
        | some j =>
          if t.state.getD j SlotState.EMPTY == SlotState.OCCUPIED then (some j, none)
          else (none,
            some ((ftOr ft ((L.takeWhile (fun x => ! stopB t key x)).find? (tombB t))).getD j))
        | none => (none, ftOr ft (L.find? (tombB t))) := by
  intro L
  induction L with
  | nil => intro ft; simp [specLoop, ftOr_none_right]
  | cons a tl ih =>
    intro ft
    cases hstate : t.state.getD a SlotState.EMPTY with
    | EMPTY =>
      have hstop : stopB t key a = true := stopB_empty t key a hstate
      rw [List.find?_cons_of_pos _ hstop]
      simp only [specLoop, hstate]
      rw [List.takeWhile_cons_of_neg (by simp [hstop])]
      simp [ftOr_none_right, hstate]
    | OCCUPIED =>
      by_cases hk : t.keys.getD a none = some key
      · have hstop : stopB t key a = true := stopB_occ_match t key a hstate hk
        rw [List.find?_cons_of_pos _ hstop]
        simp only [specLoop, hstate, if_pos hk]
        simp [hstate]
      · have hstop : stopB t key a = false := stopB_occ_nomatch t key a hstate hk
        rw [List.find?_cons_of_neg _ (by simp [hstop])]
        rw [List.takeWhile_cons_of_pos (by simp [hstop])]
        have htomb : tombB t a = false :=
          tombB_not_deleted t a (by rw [hstate]; intro hc; cases hc)
        rw [List.find?_cons_of_neg _ (by simp [htomb]),
            List.find?_cons_of_neg _ (by simp [htomb])]
        simp only [specLoop, hstate, if_neg hk]
        exact ih ft
    | DELETED =>
      have hstop : stopB t key a = false := stopB_deleted t key a hstate
      have htomb : tombB t a = true := tombB_deleted t a hstate
      simp only [specLoop, hstate]
      rw [List.find?_cons_of_neg _ (by simp [hstop]),
          List.takeWhile_cons_of_pos (by simp [hstop])]
      simp only [List.find?_cons_of_pos _ htomb]
      rw [ih (if ft = none then some a else ft)]
      cases hfind : tl.find? (stopB t key) with
      | none => simp only [hfind, ftOr_collapse]
      | some j =>
        simp only [hfind]
        cases hocc : t.state.getD j SlotState.EMPTY == SlotState.OCCUPIED with
        | true => simp [hocc]
        | false => simp [hocc, ftOr_collapse]

lemma pathFrom_mem_lt (cap i n j : Nat) (hc : 0 < cap) (hj : j ∈ pathFrom cap i n) :
    j < cap := by
  unfold pathFrom at hj
  obtain ⟨k, _, hk⟩ := List.mem_map.mp hj
  rw [← hk]
  exact Nat.mod_lt _ hc

lemma probePath_nodup (t : Table) (start : Nat) (hs : start < t.capacity) :
    (probePath t start).Nodup := by
  unfold probePath pathFrom
  refine List.Nodup.map_on ?_ (List.nodup_range _)
  intro a ha b hb hab
  rw [List.mem_range] at ha hb
  have h1 : a % t.capacity = b % t.capacity :=
    Nat.ModEq.add_left_cancel' start hab
  rwa [Nat.mod_eq_of_lt ha, Nat.mod_eq_of_lt hb] at h1

lemma probePath_congr (t₁ t₂ : Table) (start : Nat) (hcap : t₁.capacity = t₂.capacity) :
    probePath t₁ start = probePath t₂ start := by
  unfold probePath pathFrom
  rw [hcap]

@[simp] lemma unlink_capacity (t : Table) (i : Nat) : (t.unlink i).capacity = t.capacity := by
  simp only [Table.unlink]
  cases t.prev.getD i none <;> cases t.next.getD i none <;> rfl

@[simp] lemma unlink_keys (t : Table) (i : Nat) : (t.unlink i).keys = t.keys := by
  simp only [Table.unlink]
  cases t.prev.getD i none <;> cases t.next.getD i none <;> rfl

@[simp] lemma unlink_vals (t : Table) (i : Nat) : (t.unlink i).vals = t.vals := by
  simp only [Table.unlink]
  cases t.prev.getD i none <;> cases t.next.getD i none <;> rfl

@[simp] lemma unlink_state (t : Table) (i : Nat) : (t.unlink i).state = t.state := by
  simp only [Table.unlink]
  cases t.prev.getD i none <;> cases t.next.getD i none <;> rfl

@[simp] lemma unlink_size (t : Table) (i : Nat) : (t.unlink i).size = t.size := by
  simp only [Table.unlink]
  cases t.prev.getD i none <;> cases t.next.getD i none <;> rfl

@[simp] lemma linkToHead_capacity (t : Table) (i : Nat) :
    (t.linkToHead i).capacity = t.capacity := by
  simp only [Table.linkToHead]
  cases t.head <;> split <;> rfl

@[simp] lemma linkToHead_keys (t : Table) (i : Nat) : (t.linkToHead i).keys = t.keys := by
  simp only [Table.linkToHead]
  cases t.head <;> split <;> rfl

@[simp] lemma linkToHead_vals (t : Table) (i : Nat) : (t.linkToHead i).vals = t.vals := by
  simp only [Table.linkToHead]
  cases t.head <;> split <;> rfl

@[simp] lemma linkToHead_state (t : Table) (i : Nat) : (t.linkToHead i).state = t.state := by
  simp only [Table.linkToHead]
  cases t.head <;> split <;> rfl

@[simp] lemma linkToHead_size (t : Table) (i : Nat) : (t.linkToHead i).size = t.size := by
  simp only [Table.linkToHead]
  cases t.head <;> split <;> rfl

@[simp] lemma linkToHead_head (t : Table) (i : Nat) : (t.linkToHead i).head = some i := by
  simp only [Table.linkToHead]
  cases t.head <;> split <;> rfl

@[simp] lemma moveToHead_capacity (t : Table) (i : Nat) :
    (t.moveToHead i).capacity = t.capacity := by
  simp only [Table.moveToHead]
  split <;> simp

@[simp] lemma moveToHead_keys (t : Table) (i : Nat) : (t.moveToHead i).keys = t.keys := by
  simp only [Table.moveToHead]
  split <;> simp

@[simp] lemma moveToHead_vals (t : Table) (i : Nat) : (t.moveToHead i).vals = t.vals := by
  simp only [Table.moveToHead]
  split <;> simp

@[simp] lemma moveToHead_state (t : Table) (i : Nat) : (t.moveToHead i).state = t.state := by
  simp only [Table.moveToHead]
  split <;> simp

@[simp] lemma moveToHead_size (t : Table) (i : Nat) : (t.moveToHead i).size = t.size := by
  simp only [Table.moveToHead]
  split <;> simp

lemma moveToHead_head (t : Table) (i : Nat) : (t.moveToHead i).head = some i := by
  simp only [Table.moveToHead]
  split <;> simp_all

lemma noStop_of_stopB_false (t : Table) (key : String) (j : Nat)
    (h : stopB t key j = false) : noStop t key j := by
  unfold stopB at h
  unfold noStop
  rw [Bool.or_eq_false_iff] at h
  obtain ⟨h1, h2⟩ := h
  constructor
  · exact beq_eq_false_iff_ne.mp h1
  · rintro ⟨ho, hk⟩
    rw [Bool.and_eq_false_iff] at h2
    rcases h2 with h2 | h2
    · exact beq_eq_false_iff_ne.mp h2 ho
    · exact beq_eq_false_iff_ne.mp h2 hk

/-- The probe of the source equals the declarative probe of the spec. -/
lemma probe_eq_specProbe (hf : String → Nat) (t : Table) (key : String)
    (hcap : 0 < t.capacity) :
    t.probe hf key hcap = specProbe t key (t.idx hf key) := by
  rw [probe_eq_specLoop hf t key hcap, specLoop_find_char t key (probePath t (t.idx hf key)) none]
  unfold specProbe
  cases hfind : (probePath t (t.idx hf key)).find? (stopB t key) with
  | none => simp only [hfind, ftOr_none_left]
  | some j =>
    cases hocc : t.state.getD j SlotState.EMPTY == SlotState.OCCUPIED with
    | true => simp [hfind, hocc, ftOr_none_left]
    | false => simp [hfind, hocc, ftOr_none_left]

/-- A successful probe locates an OCCUPIED slot holding the key, preceded on
the probe path only by slots that do not stop the scan. -/
lemma probe_found_facts (hf : String → Nat) (t : Table) (key : String)
    (hcap : 0 < t.capacity) (fi : Nat) (h : (t.probe hf key hcap).1 = some fi) :
    t.probe hf key hcap = (some fi, none) ∧
    fi < t.capacity ∧
    t.state.getD fi SlotState.EMPTY = SlotState.OCCUPIED ∧
    t.keys.getD fi none = some key ∧
    ∃ pre post, probePath t (t.idx hf key) = pre ++ fi :: post ∧
      (∀ j ∈ pre, noStop t key j) := by
  have hpl := probe_eq_specLoop hf t key hcap
  have hsl : specLoop t key (probePath t (t.idx hf key)) none = (some fi, (t.probe hf key hcap).2) := by
    rw [← hpl, ← h]
  obtain ⟨hsn, pre, post, hdec, hns, hocc, hkey⟩ :=
    specLoop_found_ext t key _ none fi _ hsl
  have hfi_lt : fi < t.capacity := by
    apply pathFrom_mem_lt t.capacity (t.idx hf key) t.capacity fi hcap
    show fi ∈ probePath t (t.idx hf key)
    rw [hdec]
    exact List.mem_append_right pre (List.mem_cons_self fi post)
  refine ⟨?_, hfi_lt, hocc, hkey, pre, post, hdec, hns⟩
  have : t.probe hf key hcap = ((t.probe hf key hcap).1, (t.probe hf key hcap).2) := rfl
  rw [this, h, hsn]

/-- Rebuild a probe result from a decomposition of the probe path: if the
slots before `fi` do not stop the scan and `fi` holds the key, the probe
finds `fi`. -/
lemma probe_found_of_decomp (hf : String → Nat) (t : Table) (key : String)
    (hcap : 0 < t.capacity) (fi : Nat) (pre post : List Nat)
    (hdec : probePath t (t.idx hf key) = pre ++ fi :: post)
    (hns : ∀ j ∈ pre, noStop t key j)
    (hocc : t.state.getD fi SlotState.EMPTY = SlotState.OCCUPIED)
    (hkey : t.keys.getD fi none = some key) :
    t.probe hf key hcap = (some fi, none) := by
  rw [probe_eq_specLoop hf t key hcap, hdec]
  exact specLoop_found_at t key pre post none fi hns hocc hkey

/-- A probe that reports an insertion slot: the slot is on the probe path,
it is not OCCUPIED, and every slot before it is OCCUPIED by another key. -/
lemma probe_ins_facts (hf : String → Nat) (t : Table) (key : String)
    (hcap : 0 < t.capacity) (ii : Nat) (h : t.probe hf key hcap = (none, some ii)) :
    ii < t.capacity ∧
    t.state.getD ii SlotState.EMPTY ≠ SlotState.OCCUPIED ∧
    ∃ pre post, probePath t (t.idx hf key) = pre ++ ii :: post ∧
      (∀ j ∈ pre, t.state.getD j SlotState.EMPTY = SlotState.OCCUPIED ∧
        t.keys.getD j none ≠ some key) := by
  have hpl := probe_eq_specLoop hf t key hcap
  have hsl : specLoop t key (probePath t (t.idx hf key)) none = (none, some ii) := by
    rw [← hpl, h]
  rcases specLoop_ins_ext t key _ none ii hsl with hc | ⟨_, pre, post, hdec, hpre, hii⟩
  · cases hc
  · have hii_lt : ii < t.capacity := by
      apply pathFrom_mem_lt t.capacity (t.idx hf key) t.capacity ii hcap
      show ii ∈ probePath t (t.idx hf key)
      rw [hdec]
      exact List.mem_append_right pre (List.mem_cons_self ii post)
    exact ⟨hii_lt, hii, pre, post, hdec, hpre⟩

/-- The probe only reads `capacity`, `state` and `keys`; two tables agreeing
on those fields yield identical probes. -/
lemma probe_congr (hf : String → Nat) (t₁ t₂ : Table) (key : String)
    (hcap₁ : 0 < t₁.capacity) (hcap₂ : 0 < t₂.capacity)
    (hc : t₁.capacity = t₂.capacity) (hs : t₁.state = t₂.state) (hk : t₁.keys = t₂.keys) :
    t₁.probe hf key hcap₁ = t₂.probe hf key hcap₂ := by
  rw [probe_eq_specLoop hf t₁ key hcap₁, probe_eq_specLoop hf t₂ key hcap₂]
  have hidx : t₁.idx hf key = t₂.idx hf key := by
    unfold Table.idx
    rw [hc]
  rw [hidx, probePath_congr t₁ t₂ (t₂.idx hf key) hc]
  exact specLoop_congr t₁ t₂ key hs hk _ none

lemma linkToHead_next (t : Table) (i : Nat) :
    (t.linkToHead i).next = t.next.set i t.head := by
  simp only [Table.linkToHead]
  cases t.head <;> split <;> rfl

lemma linkToHead_prev_hnone (t : Table) (i : Nat) (h : t.head = none) :
    (t.linkToHead i).prev = t.prev.set i none := by
  simp only [Table.linkToHead, h]
  split <;> rfl

lemma linkToHead_prev_hsome (t : Table) (i hd : Nat) (h : t.head = some hd) :
    (t.linkToHead i).prev = (t.prev.set i none).set hd (some i) := by
  simp only [Table.linkToHead, h]
  split <;> rfl

lemma linkToHead_tail_tnone (t : Table) (i : Nat) (h : t.tail = none) :
    (t.linkToHead i).tail = some i := by
  simp only [Table.linkToHead]
  cases t.head <;> simp [h]

lemma linkToHead_tail_tsome (t : Table) (i x : Nat) (h : t.tail = some x) :
    (t.linkToHead i).tail = some x := by
  simp only [Table.linkToHead]
  cases t.head <;> simp [h]

lemma unlink_head_pnone (t : Table) (i : Nat) (hp : t.prev.getD i none = none) :
    (t.unlink i).head = t.next.getD i none := by
  simp only [Table.unlink, hp]
  cases t.next.getD i none <;> rfl

lemma unlink_head_psome (t : Table) (i pi : Nat) (hp : t.prev.getD i none = some pi) :
    (t.unlink i).head = t.head := by
  simp only [Table.unlink, hp]
  cases t.next.getD i none <;> rfl

lemma unlink_tail_nnone (t : Table) (i : Nat) (hn : t.next.getD i none = none) :
    (t.unlink i).tail = t.prev.getD i none := by
  simp only [Table.unlink, hn]

lemma unlink_tail_nsome (t : Table) (i ni : Nat) (hn : t.next.getD i none = some ni) :
    (t.unlink i).tail = t.tail := by
  simp only [Table.unlink, hn]
  cases t.prev.getD i none <;> rfl

lemma unlink_next_pnone (t : Table) (i : Nat) (hp : t.prev.getD i none = none) :
    (t.unlink i).next = t.next.set i none := by
  simp only [Table.unlink, hp]
  cases t.next.getD i none <;> rfl

lemma unlink_next_psome (t : Table) (i pi : Nat) (hp : t.prev.getD i none = some pi) :
    (t.unlink i).next = (t.next.set pi (t.next.getD i none)).set i none := by
  simp only [Table.unlink, hp]
  cases t.next.getD i none <;> rfl

lemma unlink_prev_nnone (t : Table) (i : Nat) (hn : t.next.getD i none = none) :
    (t.unlink i).prev = t.prev.set i none := by
  simp only [Table.unlink, hn]
  cases t.prev.getD i none <;> rfl

lemma unlink_prev_nsome (t : Table) (i ni : Nat) (hn : t.next.getD i none = some ni) :
    (t.unlink i).prev = (t.prev.set ni (t.prev.getD i none)).set i none := by
  simp only [Table.unlink, hn]
  cases t.prev.getD i none <;> rfl

lemma chainSeg_append (nx pv : List (Option Nat)) :
    ∀ (A B : List Nat) (p c p2 c2 : Option Nat),
      ChainSeg nx pv p c (A ++ B) p2 c2 ↔
        ∃ p1 c1, ChainSeg nx pv p c A p1 c1 ∧ ChainSeg nx pv p1 c1 B p2 c2 := by
  intro A
  induction A with
  | nil =>
    intro B p c p2 c2
    constructor
    · intro h
      exact ⟨p, c, ⟨rfl, rfl⟩, h⟩
    · rintro ⟨p1, c1, ⟨hp, hc⟩, h⟩
      rw [List.nil_append]
      rw [hp, hc] at h
      exact h
  | cons a A' ih =>
    intro B p c p2 c2
    constructor
    · rintro ⟨hc, hpv, hrest⟩
      obtain ⟨p1, c1, h1, h2⟩ := (ih B (some a) (nx.getD a none) p2 c2).mp hrest
      exact ⟨p1, c1, ⟨hc, hpv, h1⟩, h2⟩
    · rintro ⟨p1, c1, ⟨hc, hpv, h1⟩, h2⟩
      exact ⟨hc, hpv, (ih B (some a) (nx.getD a none) p2 c2).mpr ⟨p1, c1, h1, h2⟩⟩

lemma chainSeg_frame (nx pv nx' pv' : List (Option Nat)) :
    ∀ (L : List Nat) (p c p' c' : Option Nat),
      (∀ j ∈ L, nx'.getD j none = nx.getD j none ∧ pv'.getD j none = pv.getD j none) →
      ChainSeg nx pv p c L p' c' → ChainSeg nx' pv' p c L p' c' := by
  intro L
  induction L with
  | nil => intro p c p' c' _ h; exact h
  | cons a L' ih =>
    intro p c p' c' hag h
    obtain ⟨hc, hpv, hrest⟩ := h
    refine ⟨hc, ?_, ?_⟩
    · rw [(hag a (List.mem_cons_self a L')).2]
      exact hpv
    · rw [(hag a (List.mem_cons_self a L')).1]
      exact ih (some a) (nx.getD a none) p' c'
        (fun j hj => hag j (List.mem_cons_of_mem a hj)) hrest

lemma chainSeg_last (nx pv : List (Option Nat)) :
    ∀ (L : List Nat) (p c p' c' : Option Nat), ChainSeg nx pv p c L p' c' → L ≠ [] →
      ∃ a, a ∈ L ∧ p' = some a ∧ c' = nx.getD a none := by
  intro L
  induction L with
  | nil => intro p c p' c' _ h; exact absurd rfl h
  | cons a L' ih =>
    intro p c p' c' h _
    obtain ⟨hc, hpv, hrest⟩ := h
    cases L' with
    | nil =>
      obtain ⟨hp', hc'⟩ := hrest
      exact ⟨a, List.mem_cons_self a [], hp', hc'⟩
    | cons b L'' =>
      obtain ⟨x, hx, hp', hc'⟩ :=
        ih (some a) (nx.getD a none) p' c' hrest (by intro hcon; cases hcon)
      exact ⟨x, List.mem_cons_of_mem a hx, hp', hc'⟩

lemma unlink_prev_length (t : Table) (i : Nat) :
    (t.unlink i).prev.length = t.prev.length := by
  simp only [Table.unlink]
  cases t.prev.getD i none <;> cases t.next.getD i none <;> simp [List.length_set]

lemma unlink_next_length (t : Table) (i : Nat) :
    (t.unlink i).next.length = t.next.length := by
  simp only [Table.unlink]
  cases t.prev.getD i none <;> cases t.next.getD i none <;> simp [List.length_set]

lemma linkToHead_prev_length (t : Table) (i : Nat) :
    (t.linkToHead i).prev.length = t.prev.length := by
  simp only [Table.linkToHead]
  cases t.head <;> split <;> simp [List.length_set]

lemma linkToHead_next_length (t : Table) (i : Nat) :
    (t.linkToHead i).next.length = t.next.length := by
  simp only [Table.linkToHead]
  cases t.head <;> split <;> simp [List.length_set]

lemma WF_unlink (t : Table) (i : Nat) (h : WF t) : WF (t.unlink i) := by
  obtain ⟨hc, hk, hv, hs, hp, hn⟩ := h
  exact ⟨by rwa [unlink_capacity], by rwa [unlink_keys, unlink_capacity],
    by rwa [unlink_vals, unlink_capacity], by rwa [unlink_state, unlink_capacity],
    by rwa [unlink_prev_length, unlink_capacity], by rwa [unlink_next_length, unlink_capacity]⟩

lemma WF_linkToHead (t : Table) (i : Nat) (h : WF t) : WF (t.linkToHead i) := by
  obtain ⟨hc, hk, hv, hs, hp, hn⟩ := h
  exact ⟨by rwa [linkToHead_capacity], by rwa [linkToHead_keys, linkToHead_capacity],
    by rwa [linkToHead_vals, linkToHead_capacity], by rwa [linkToHead_state, linkToHead_capacity],
    by rwa [linkToHead_prev_length, linkToHead_capacity],
    by rwa [linkToHead_next_length, linkToHead_capacity]⟩

lemma nodup_split_middle (A : List Nat) (i : Nat) (B : List Nat)
    (h : (A ++ i :: B).Nodup) :
    i ∉ A ∧ i ∉ B ∧ A.Nodup ∧ B.Nodup ∧ ∀ j ∈ A, j ∉ B := by
  rw [List.nodup_middle, List.nodup_cons, List.mem_append, List.nodup_append] at h
  obtain ⟨hmem, hA, hB, hdisj⟩ := h
  exact ⟨fun hx => hmem (Or.inl hx), fun hx => hmem (Or.inr hx), hA, hB,
    fun j hj hjB => hdisj hj hjB⟩

/-- `_link_to_head` correctness: linking a fresh node `i` produces the
recency list `i :: L`. -/
lemma linkToHead_chain (t : Table) (i : Nat) (L : List Nat)
    (hch : RecChain t L) (hi : i ∉ L) (hic : i < t.capacity)
    (hlt : ∀ j ∈ L, j < t.capacity) (hnd : L.Nodup) (hWF : WF t) :
    RecChain (t.linkToHead i) (i :: L) := by
  obtain ⟨hc, hkl, hvl, hsl, hpl, hnl⟩ := hWF
  unfold RecChain at hch ⊢
  cases hhd : t.head with
  | none =>
    cases L with
    | cons e L' =>
      obtain ⟨hce, _, _⟩ := hch
      rw [hhd] at hce
      cases hce
    | nil =>
      obtain ⟨htl, _⟩ := hch
      rw [linkToHead_prev_hnone t i hhd, linkToHead_next, linkToHead_head,
        linkToHead_tail_tnone t i htl]
      refine ⟨rfl, ?_, rfl, ?_⟩
      · exact getD_set_self t.prev i none none (by rw [hpl]; exact hic)
      · rw [getD_set_self t.next i t.head none (by rw [hnl]; exact hic), hhd]
  | some hd =>
    cases L with
    | nil =>
      obtain ⟨_, hhd2⟩ := hch
      rw [hhd] at hhd2
      cases hhd2
    | cons e L' =>
      have hfirst : e = hd := by
        obtain ⟨hce, _, _⟩ := hch
        rw [hhd] at hce
        injection hce with h
        exact h.symm
      subst hfirst
      obtain ⟨la, hla_mem, hla_tail, _⟩ :=
        chainSeg_last t.next t.prev (e :: L') none t.head t.tail none hch
          (by intro hcon; cases hcon)
      obtain ⟨hce, hpe, hrest⟩ := hch
      have hie : i ≠ e := fun hx => hi (hx ▸ List.mem_cons_self e L')
      have heL' : e ∉ L' := (List.nodup_cons.mp hnd).1
      have hel : e < t.capacity := hlt e (List.mem_cons_self e L')
      rw [linkToHead_prev_hsome t i e hhd, linkToHead_next, linkToHead_head,
        linkToHead_tail_tsome t i la hla_tail]
      refine ⟨rfl, ?_, ?_, ?_, ?_⟩
      · rw [getD_set_ne _ _ _ (fun hx => hie hx.symm),
          getD_set_self t.prev i none none (by rw [hpl]; exact hic)]
      · rw [getD_set_self t.next i t.head none (by rw [hnl]; exact hic), hhd]
      · exact getD_set_self _ e (some i) none
          (by rw [List.length_set, hpl]; exact hel)
      · rw [getD_set_ne _ _ _ hie]
        have hrest' : ChainSeg t.next t.prev (some e) (t.next.getD e none) L' (some la) none := by
          rw [← hla_tail]
          exact hrest
        refine chainSeg_frame t.next t.prev _ _ L' (some e) (t.next.getD e none)
          (some la) none ?_ hrest'
        intro j hj
        have hji : j ≠ i := fun hx => hi (hx ▸ List.mem_cons_of_mem e hj)
        have hje : j ≠ e := fun hx => heL' (hx ▸ hj)
        constructor
        · exact getD_set_ne _ _ _ (fun hx => hji hx.symm)
        · rw [getD_set_ne _ _ _ (fun hx => hje hx.symm),
            getD_set_ne _ _ _ (fun hx => hji hx.symm)]

/-- `_unlink` correctness: splicing `i` out of the recency list
`A ++ i :: B` produces the recency list `A ++ B`. -/
lemma unlink_chain (t : Table) (i : Nat) (A B : List Nat)
    (hch : RecChain t (A ++ i :: B)) (hnd : (A ++ i :: B).Nodup)
    (hlt : ∀ j ∈ A ++ i :: B, j < t.capacity) (hWF : WF t) :
    RecChain (t.unlink i) (A ++ B) := by
  obtain ⟨hc, hkl, hvl, hsl, hpl, hnl⟩ := hWF
  obtain ⟨hiA, hiB, hndA, hndB, hdisj⟩ := nodup_split_middle A i B hnd
  have hic : i < t.capacity := hlt i (by simp)
  unfold RecChain at hch ⊢
  obtain ⟨p1, c1, hA, hiBseg⟩ :=
    (chainSeg_append t.next t.prev A (i :: B) none t.head t.tail none).mp hch
  obtain ⟨hc1, hpi, hB⟩ := hiBseg
  rcases List.eq_nil_or_concat A with rfl | ⟨A0, a, rfl⟩
  · obtain ⟨hp1, hc1'⟩ := hA
    have hpnone : t.prev.getD i none = none := by rw [hpi, hp1]
    cases B with
    | nil =>
      obtain ⟨htail, hnxi⟩ := hB
      rw [List.nil_append]
      constructor
      · rw [unlink_tail_nnone t i hnxi.symm, hpnone]
      · rw [unlink_head_pnone t i hpnone, ← hnxi]
    | cons b B' =>
      obtain ⟨hcb, hpb, hB'⟩ := hB
      have hib : i ≠ b := fun hx => hiB (hx ▸ List.mem_cons_self b B')
      have hbc : b < t.capacity := hlt b (by simp)
      rw [List.nil_append]
      rw [show (t.unlink i).head = some b from by rw [unlink_head_pnone t i hpnone, hcb],
        unlink_next_pnone t i hpnone, unlink_prev_nsome t i b hcb,
        unlink_tail_nsome t i b hcb, hpnone]
      refine ⟨rfl, ?_, ?_⟩
      · rw [getD_set_ne _ _ _ hib,
          getD_set_self t.prev b none none (by rw [hpl]; exact hbc)]
      · rw [getD_set_ne _ _ _ hib]
        refine chainSeg_frame t.next t.prev _ _ B' (some b) (t.next.getD b none)
          t.tail none ?_ hB'
        intro j hj
        have hji : j ≠ i := fun hx => hiB (hx ▸ List.mem_cons_of_mem b hj)
        have hjb : j ≠ b := fun hx => (List.nodup_cons.mp hndB).1 (hx ▸ hj)
        constructor
        · exact getD_set_ne _ _ _ (fun hx => hji hx.symm)
        · rw [getD_set_ne _ _ _ (fun hx => hji hx.symm),
            getD_set_ne _ _ _ (fun hx => hjb hx.symm)]
  · simp only [List.concat_eq_append] at hA hiA hndA hdisj hlt ⊢
    obtain ⟨pa, ca, hA0, haseg⟩ :=
      (chainSeg_append t.next t.prev A0 [a] none t.head p1 c1).mp hA
    obtain ⟨hca, hpa, hanil⟩ := haseg
    obtain ⟨hp1, hc1'⟩ := hanil
    have hnxa : t.next.getD a none = some i := by rw [← hc1', hc1]
    have hpisome : t.prev.getD i none = some a := by rw [hpi, hp1]
    have hmem_a : a ∈ A0 ++ [a] := by simp
    have hai : a ≠ i := fun hx => hiA (hx ▸ hmem_a)
    have hac : a < t.capacity := hlt a (by simp)
    have haA0 : a ∉ A0 := by
      rw [List.nodup_append] at hndA
      intro hx
      exact hndA.2.2 hx (List.mem_cons_self a [])
    cases B with
    | nil =>
      obtain ⟨htail, hnxi⟩ := hB
      rw [List.append_nil]
      rw [show (t.unlink i).tail = some a from by
            rw [unlink_tail_nnone t i hnxi.symm, hpisome],
        unlink_next_psome t i a hpisome, ← hnxi,
        unlink_prev_nnone t i hnxi.symm,
        unlink_head_psome t i a hpisome]
      refine (chainSeg_append _ _ A0 [a] none t.head (some a) none).mpr
        ⟨pa, ca, ?_, ?_⟩
      · refine chainSeg_frame t.next t.prev _ _ A0 none t.head pa ca ?_ hA0
        intro j hj
        have hji : j ≠ i := fun hx => hiA (hx ▸ List.mem_append_left [a] hj)
        have hja : j ≠ a := fun hx => haA0 (hx ▸ hj)
        constructor
        · rw [getD_set_ne _ _ _ (fun hx => hji hx.symm),
            getD_set_ne _ _ _ (fun hx => hja hx.symm)]
        · exact getD_set_ne _ _ _ (fun hx => hji hx.symm)
      · refine ⟨hca, ?_, rfl, ?_⟩
        · rw [getD_set_ne _ _ _ (fun hx => hai hx.symm)]
          exact hpa
        · rw [getD_set_ne _ _ _ (Ne.symm hai),
            getD_set_self t.next a none none (by rw [hnl]; exact hac)]
    | cons b B' =>
      obtain ⟨hcb, hpb, hB'⟩ := hB
      have hib : i ≠ b := fun hx => hiB (hx ▸ List.mem_cons_self b B')
      have hbc : b < t.capacity := hlt b (by simp)
      have hab : a ≠ b := by
        intro hx
        exact hdisj a hmem_a (hx ▸ List.mem_cons_self b B')
      have hbA0 : b ∉ A0 := by
        intro hx
        exact hdisj b (List.mem_append_left [a] hx) (List.mem_cons_self b B')
      rw [unlink_next_psome t i a hpisome, hcb,
        unlink_prev_nsome t i b hcb, hpisome,
        unlink_head_psome t i a hpisome,
        unlink_tail_nsome t i b hcb,
        List.append_assoc]
      refine (chainSeg_append _ _ A0 ([a] ++ b :: B') none t.head t.tail none).mpr
        ⟨pa, ca, ?_, ?_⟩
      · refine chainSeg_frame t.next t.prev _ _ A0 none t.head pa ca ?_ hA0
        intro j hj
        have hji : j ≠ i := fun hx => hiA (hx ▸ List.mem_append_left [a] hj)
        have hja : j ≠ a := fun hx => haA0 (hx ▸ hj)
        have hjb : j ≠ b := fun hx => hbA0 (hx ▸ hj)
        constructor
        · rw [getD_set_ne _ _ _ (fun hx => hji hx.symm),
            getD_set_ne _ _ _ (fun hx => hja hx.symm)]
        · rw [getD_set_ne _ _ _ (fun hx => hji hx.symm),
            getD_set_ne _ _ _ (fun hx => hjb hx.symm)]
      · refine ⟨hca, ?_, ?_, ?_, ?_⟩
        · rw [getD_set_ne _ _ _ (fun hx => hai hx.symm),
            getD_set_ne _ _ _ (fun hx => hab hx.symm)]
          exact hpa
        · rw [getD_set_ne _ _ _ (Ne.symm hai),
            getD_set_self t.next a (some b) none (by rw [hnl]; exact hac)]
        · rw [getD_set_ne _ _ _ hib,
            getD_set_self t.prev b (some a) none (by rw [hpl]; exact hbc)]
        · rw [getD_set_ne _ _ _ hib,
            getD_set_ne _ _ _ hab]
          refine chainSeg_frame t.next t.prev _ _ B' (some b) (t.next.getD b none)
            t.tail none ?_ hB'
          intro j hj
          have hji : j ≠ i := fun hx => hiB (hx ▸ List.mem_cons_of_mem b hj)
          have hjb : j ≠ b := fun hx => (List.nodup_cons.mp hndB).1 (hx ▸ hj)
          have hja : j ≠ a := by
            intro hx
            exact hdisj a hmem_a (hx ▸ List.mem_cons_of_mem b hj)
          constructor
          · rw [getD_set_ne _ _ _ (fun hx => hji hx.symm),
              getD_set_ne _ _ _ (fun hx => hja hx.symm)]
          · rw [getD_set_ne _ _ _ (fun hx => hji hx.symm),
              getD_set_ne _ _ _ (fun hx => hjb hx.symm)]

/-- `_move_to_head` correctness: the touched node ends up at the head, the
relative order of the others is unchanged. -/
lemma moveToHead_chain (t : Table) (i : Nat) (A B : List Nat)
    (hch : RecChain t (A ++ i :: B)) (hnd : (A ++ i :: B).Nodup)
    (hlt : ∀ j ∈ A ++ i :: B, j < t.capacity) (hWF : WF t) :
    RecChain (t.moveToHead i) (i :: (A ++ B)) := by
  obtain ⟨hiA, hiB, hndA, hndB, hdisj⟩ := nodup_split_middle A i B hnd
  unfold Table.moveToHead
  by_cases hh : t.head = some i
  · rw [if_pos hh]
    cases A with
    | nil => simpa using hch
    | cons a1 A' =>
      obtain ⟨hc1, _, _⟩ := hch
      rw [hh] at hc1
      injection hc1 with hia
      exact absurd (hia ▸ List.mem_cons_self a1 A') hiA
  · rw [if_neg hh]
    have hchain' : RecChain (t.unlink i) (A ++ B) :=
      unlink_chain t i A B hch hnd hlt hWF
    have hWF' : WF (t.unlink i) := WF_unlink t i hWF
    refine linkToHead_chain (t.unlink i) i (A ++ B) hchain' ?_ ?_ ?_ ?_ hWF'
    · intro hx
      rcases List.mem_append.mp hx with hxa | hxb
      · exact hiA hxa
      · exact hiB hxb
    · rw [unlink_capacity]
      exact hlt i (by simp)
    · intro j hj
      rw [unlink_capacity]
      rcases List.mem_append.mp hj with hja | hjb
      · exact hlt j (List.mem_append_left _ hja)
      · exact hlt j (List.mem_append_right _ (List.mem_cons_of_mem i hjb))
    · rw [List.nodup_append]
      rw [List.nodup_append] at hnd
      obtain ⟨h1, h2, h3⟩ := hnd
      exact ⟨h1, (List.nodup_cons.mp h2).2,
        fun x hx hx2 => h3 hx (List.mem_cons_of_mem i hx2)⟩

lemma insert_found_eq (hf : String → Nat) (t : Table) (key : String) (value : Int)
    (hcap : 0 < t.capacity) (fi : Nat) (snd : Option Nat)
    (hp : t.probe hf key hcap = (some fi, snd)) :
    t.insert hf key value hcap =
      (({ t with vals := t.vals.set fi (some value) } : Table).moveToHead fi, none) := by
  unfold Table.insert
  rw [hp]

lemma insert_new_eq (hf : String → Nat) (t : Table) (key : String) (value : Int)
    (hcap : 0 < t.capacity) (ii : Nat)
    (hp : t.probe hf key hcap = (none, some ii)) :
    t.insert hf key value hcap =
      (({ ({ t with keys := t.keys.set ii (some key),
                    vals := t.vals.set ii (some value),
                    state := t.state.set ii SlotState.OCCUPIED } : Table).linkToHead ii with
          size := (({ t with keys := t.keys.set ii (some key),
                             vals := t.vals.set ii (some value),
                             state := t.state.set ii SlotState.OCCUPIED } : Table).linkToHead
            ii).size + 1 } : Table), none) := by
  unfold Table.insert
  rw [hp]

lemma insert_full_eq (hf : String → Nat) (t : Table) (key : String) (value : Int)
    (hcap : 0 < t.capacity)
    (hp : t.probe hf key hcap = (none, none)) :
    t.insert hf key value hcap = (t, some TableError.tableFull) := by
  unfold Table.insert
  rw [hp]

lemma get_found_eq (hf : String → Nat) (t : Table) (key : String)
    (hcap : 0 < t.capacity) (fi : Nat) (hp : (t.probe hf key hcap).1 = some fi) :
    t.get hf key hcap = (t, Except.ok (t.vals.getD fi none)) := by
  unfold Table.get
  rw [hp]

lemma get_miss_eq (hf : String → Nat) (t : Table) (key : String)
    (hcap : 0 < t.capacity) (hp : (t.probe hf key hcap).1 = none) :
    t.get hf key hcap = (t, Except.error TableError.keyNotFound) := by
  unfold Table.get
  rw [hp]

lemma remove_found_eq (hf : String → Nat) (t : Table) (key : String)
    (hcap : 0 < t.capacity) (fi : Nat) (hp : (t.probe hf key hcap).1 = some fi) :
    t.remove hf key hcap =
      (({ t.unlink fi with
          keys := (t.unlink fi).keys.set fi none,
          vals := (t.unlink fi).vals.set fi none,
          state := (t.unlink fi).state.set fi SlotState.DELETED,
          size := (t.unlink fi).size - 1 } : Table), none) := by
  unfold Table.remove
  rw [hp]

lemma remove_miss_eq (hf : String → Nat) (t : Table) (key : String)
    (hcap : 0 < t.capacity) (hp : (t.probe hf key hcap).1 = none) :
    t.remove hf key hcap = (t, some TableError.keyNotFound) := by
  unfold Table.remove
  rw [hp]

lemma probe_pair_eq (hf : String → Nat) (t : Table) (key : String) (hcap : 0 < t.capacity) :
    t.probe hf key hcap = ((t.probe hf key hcap).1, (t.probe hf key hcap).2) := rfl

/-- A fixed hash function for concrete witnesses (Python's salted hash can
be any function, including this one). -/
def hashZ : String → Nat := fun _ => 0

/-- Concrete witness table, capacity 3: "a" ↦ 1 at slot 0, "b" ↦ 2 at
slot 1, recency list [1, 0] ("b" most recent). -/
def tA : Table :=
  { capacity := 3
    keys := [some "a", some "b", none]
    vals := [some 1, some 2, none]
    state := [SlotState.OCCUPIED, SlotState.OCCUPIED, SlotState.EMPTY]
    prev := [some 1, none, none]
    next := [none, some 0, none]
    head := some 1
    tail := some 0
    size := 2 }

/-- Concrete witness table, capacity 1, saturated with "a" ↦ 1. -/
def tFull : Table :=
  { capacity := 1
    keys := [some "a"]
    vals := [some 1]
    state := [SlotState.OCCUPIED]
    prev := [none]
    next := [none]
    head := some 0
    tail := some 0
    size := 1 }

/-- Concrete witness table, capacity 4: "a" ↦ 1, "b" ↦ 2, "c" ↦ 3 at slots
0, 1, 2, recency list [2, 1, 0] ("c" most recent, "b" in the middle). -/
def tB : Table :=
  { capacity := 4
    keys := [some "a", some "b", some "c", none]
    vals := [some 1, some 2, some 3, none]
    state := [SlotState.OCCUPIED, SlotState.OCCUPIED, SlotState.OCCUPIED, SlotState.EMPTY]
    prev := [some 1, some 2, none, none]
    next := [none, some 0, some 1, none]
    head := some 2
    tail := some 0
    size := 3 }

/-- Concrete witness table, capacity 2: "k" ↦ 1 at slot 0. -/
def tOne : Table :=
  { capacity := 2
    keys := [some "k", none]
    vals := [some 1, none]
    state := [SlotState.OCCUPIED, SlotState.EMPTY]
    prev := [none, none]
    next := [none, none]
    head := some 0
    tail := some 0
    size := 1 }

/-- Concrete table violating findability while satisfying the spec's
invariant list: "k" sits at slot 1 but hashes (under `hashZ`) to slot 0,
which is EMPTY, so probing for "k" misses it. -/
def tLost : Table :=
  { capacity := 2
    keys := [none, some "k"]
    vals := [none, some 1]
    state := [SlotState.EMPTY, SlotState.OCCUPIED]
    prev := [none, none]
    next := [none, none]
    head := some 1
    tail := some 1
    size := 1 }

/-- C1: the probe operation follows the specified linear-probing algorithm:
starting at `hash(key) mod capacity` and advancing by +1 mod capacity, it
returns `(i, none)` on reaching an OCCUPIED slot `i` holding the key; on
reaching an EMPTY slot it returns `(none, t)` with `t` the first DELETED
slot seen if any, else the EMPTY slot's index; after a full cycle without
an EMPTY slot or a match it returns `(none, firstTombstone)`, which is
`none` when the table holds no tombstone and no empty slot.  All of this is
captured by the declarative `specProbe`, which the source's loop equals. -/
theorem probe_follows_spec (hf : String → Nat) (t : Table) (key : String)
    (hcap : 0 < t.capacity) :
    t.probe hf key hcap = specProbe t key (t.idx hf key) :=
  probe_eq_specProbe hf t key hcap

theorem probe_follows_spec_witness :
    0 < tA.capacity ∧ tA.probe hashZ "c" (by decide) = specProbe tA "c" (tA.idx hashZ "c") :=
  ⟨by decide, probe_follows_spec hashZ tA "c" (by decide)⟩

/-- C3: the probe terminates for every key and every table state: with
`capacity` fuel the loop always reaches a `return` (never exhausts its
fuel), and any extra fuel is unused because the scan stops the instant the
advancing index returns to its starting point — each slot is inspected at
most once.  `insert`, `get` and `remove` are built on `Table.probe`, which
this theorem shows is the total result of the loop. -/
theorem probe_terminates (hf : String → Nat) (t : Table) (key : String)
    (hcap : 0 < t.capacity) (fuel : Nat) (hfuel : t.capacity ≤ fuel) :
    probeAux t key (t.idx hf key) fuel (t.idx hf key) none =
      some (t.probe hf key hcap) := by
  rw [probeAux_run t key (t.idx hf key) (t.idx_lt hf key hcap) fuel hfuel,
    probe_eq_specLoop hf t key hcap]

theorem probe_terminates_witness :
    (0 < tFull.capacity ∧ tFull.capacity ≤ 50) ∧
    probeAux tFull "b" (tFull.idx hashZ "b") 50 (tFull.idx hashZ "b") none =
      some (tFull.probe hashZ "b" (by decide)) :=
  ⟨⟨by decide, by decide⟩, probe_terminates hashZ tFull "b" (by decide) 50 (by decide)⟩

/-- C4: `insert` fails with `TableFull` exactly when the probe finds
neither the key nor any reusable slot (probe result `(none, none)`), and on
that failure the table state is exactly as before the call. -/
theorem insert_tableFull_iff (hf : String → Nat) (t : Table) (key : String)
    (value : Int) (hcap : 0 < t.capacity) :
    ((t.insert hf key value hcap).2 = some TableError.tableFull ↔
      t.probe hf key hcap = (none, none)) ∧
    ((t.insert hf key value hcap).2 = some TableError.tableFull →
      (t.insert hf key value hcap).1 = t) := by
  cases hp1 : (t.probe hf key hcap).1 with
  | some fi =>
    have hp : t.probe hf key hcap = (some fi, (t.probe hf key hcap).2) := by
      rw [probe_pair_eq, hp1]
    rw [insert_found_eq hf t key value hcap fi _ hp]
    refine ⟨⟨?_, ?_⟩, ?_⟩
    · intro h
      simp at h
    · intro h
      rw [hp] at h
      simp at h
    · intro h
      simp at h
  | none =>
    cases hp2 : (t.probe hf key hcap).2 with
    | some ii =>
      have hp : t.probe hf key hcap = (none, some ii) := by
        rw [probe_pair_eq, hp1, hp2]
      rw [insert_new_eq hf t key value hcap ii hp]
      refine ⟨⟨?_, ?_⟩, ?_⟩
      · intro h
        simp at h
      · intro h
        rw [hp] at h
        simp at h
      · intro h
        simp at h
    | none =>
      have hp : t.probe hf key hcap = (none, none) := by
        rw [probe_pair_eq, hp1, hp2]
      rw [insert_full_eq hf t key value hcap hp]
      exact ⟨⟨fun _ => hp, fun _ => rfl⟩, fun _ => rfl⟩

theorem insert_tableFull_iff_witness :
    0 < tFull.capacity ∧
    (((tFull.insert hashZ "b" 7 (by decide)).2 = some TableError.tableFull ↔
        tFull.probe hashZ "b" (by decide) = (none, none)) ∧
      ((tFull.insert hashZ "b" 7 (by decide)).2 = some TableError.tableFull →
        (tFull.insert hashZ "b" 7 (by decide)).1 = tFull)) :=
  ⟨by decide, insert_tableFull_iff hashZ tFull "b" 7 (by decide)⟩

/-- C8: `get` performs no mutation at all: the table state after the call
equals the state before it, and in particular `get_last` (the most-recent
query) returns the same answer before and after any `get`. -/
theorem get_no_mutation (hf : String → Nat) (t : Table) (key : String)
    (hcap : 0 < t.capacity) :
    (t.get hf key hcap).1 = t ∧
    ((t.get hf key hcap).1).get_last = t.get_last := by
  have h1 : (t.get hf key hcap).1 = t := by
    unfold Table.get
    cases (t.probe hf key hcap).1 <;> rfl
  exact ⟨h1, by rw [h1]⟩

theorem get_no_mutation_witness :
    0 < tA.capacity ∧
    ((tA.get hashZ "a" (by decide)).1 = tA ∧
      ((tA.get hashZ "a" (by decide)).1).get_last = tA.get_last) :=
  ⟨by decide, get_no_mutation hashZ tA "a" (by decide)⟩

lemma idx_congr (hf : String → Nat) (t₁ t₂ : Table) (key : String)
    (hc : t₁.capacity = t₂.capacity) : t₁.idx hf key = t₂.idx hf key := by
  unfold Table.idx
  rw [hc]

lemma get_congr (hf : String → Nat) (key : String) (t₁ t₂ : Table)
    (h₁ : 0 < t₁.capacity) (h₂ : 0 < t₂.capacity) (he : t₁ = t₂) :
    t₁.get hf key h₁ = t₂.get hf key h₂ := by
  subst he
  rfl

/-- C5: round trip — whenever `insert key value` does not fail, an
immediately following `get key` on the resulting table returns `value`. -/
theorem insert_get_roundtrip (hf : String → Nat) (t : Table) (key : String)
    (value : Int) (hcap : 0 < t.capacity)
    (hcap' : 0 < (t.insert hf key value hcap).1.capacity)
    (hWF : WF t) (hok : (t.insert hf key value hcap).2 = none) :
    ((t.insert hf key value hcap).1.get hf key hcap').2 = Except.ok (some value) := by
  obtain ⟨hc, hkl, hvl, hsl, hpl, hnl⟩ := hWF
  cases hp1 : (t.probe hf key hcap).1 with
  | some fi =>
    have hp : t.probe hf key hcap = (some fi, (t.probe hf key hcap).2) := by
      rw [probe_pair_eq, hp1]
    obtain ⟨_, hfi_lt, _, _, _⟩ := probe_found_facts hf t key hcap fi hp1
    have hins1 : (t.insert hf key value hcap).1 =
        ({ t with vals := t.vals.set fi (some value) } : Table).moveToHead fi := by
      rw [insert_found_eq hf t key value hcap fi _ hp]
    have hcapT : 0 <
        ((({ t with vals := t.vals.set fi (some value) } : Table)).moveToHead fi).capacity := by
      rw [moveToHead_capacity]
      exact hc
    rw [get_congr hf key _ _ hcap' hcapT hins1]
    have hprobe' :
        (({ t with vals := t.vals.set fi (some value) } : Table).moveToHead fi).probe hf key hcapT
          = t.probe hf key hcap := by
      apply probe_congr
      · rw [moveToHead_capacity]
      · rw [moveToHead_state]
      · rw [moveToHead_keys]
    rw [get_found_eq hf _ key hcapT fi (by rw [hprobe', hp1])]
    rw [moveToHead_vals]
    show Except.ok ((t.vals.set fi (some value)).getD fi none) = _
    rw [getD_set_self t.vals fi (some value) none (by rw [hvl]; exact hfi_lt)]
  | none =>
    cases hp2 : (t.probe hf key hcap).2 with
    | none =>
      have hp : t.probe hf key hcap = (none, none) := by
        rw [probe_pair_eq, hp1, hp2]
      rw [insert_full_eq hf t key value hcap hp] at hok
      cases hok
    | some ii =>
      have hp : t.probe hf key hcap = (none, some ii) := by
        rw [probe_pair_eq, hp1, hp2]
      obtain ⟨hii_lt, hii_nocc, pre, post, hdec, hpre⟩ := probe_ins_facts hf t key hcap ii hp
      set t1 : Table := { t with keys := t.keys.set ii (some key),
                                 vals := t.vals.set ii (some value),
                                 state := t.state.set ii SlotState.OCCUPIED } with ht1
      set t2 : Table := ({ t1.linkToHead ii with size := (t1.linkToHead ii).size + 1 } : Table)
        with ht2
      have hins1 : (t.insert hf key value hcap).1 = t2 := by
        rw [insert_new_eq hf t key value hcap ii hp]
      have hcap2 : t2.capacity = t.capacity := by
        rw [ht2]
        show (t1.linkToHead ii).capacity = t.capacity
        rw [linkToHead_capacity]
      have hcapT : 0 < t2.capacity := by
        rw [hcap2]
        exact hc
      rw [get_congr hf key _ t2 hcap' hcapT hins1]
      have hstate2 : t2.state = t.state.set ii SlotState.OCCUPIED := by
        rw [ht2]
        show (t1.linkToHead ii).state = _
        rw [linkToHead_state]
      have hkeys2 : t2.keys = t.keys.set ii (some key) := by
        rw [ht2]
        show (t1.linkToHead ii).keys = _
        rw [linkToHead_keys]
      have hvals2 : t2.vals = t.vals.set ii (some value) := by
        rw [ht2]
        show (t1.linkToHead ii).vals = _
        rw [linkToHead_vals]
      have hii_pre : ii ∉ pre := by
        have hnd := probePath_nodup t (t.idx hf key) (t.idx_lt hf key hcap)
        rw [hdec] at hnd
        exact (nodup_split_middle pre ii post hnd).1
      have hdec2 : probePath t2 (t2.idx hf key) = pre ++ ii :: post := by
        rw [idx_congr hf t2 t key hcap2, probePath_congr t2 t _ hcap2, hdec]
      have hprobe2 : t2.probe hf key hcapT = (some ii, none) := by
        apply probe_found_of_decomp hf t2 key hcapT ii pre post hdec2
        · intro j hj
          have hji : j ≠ ii := fun hx => hii_pre (hx ▸ hj)
          obtain ⟨hjo, hjk⟩ := hpre j hj
          constructor
          · rw [hstate2, getD_set_ne _ _ _ (fun hx => hji hx.symm), hjo]
            intro hcon
            cases hcon
          · rintro ⟨_, hk2⟩
            rw [hkeys2, getD_set_ne _ _ _ (fun hx => hji hx.symm)] at hk2
            exact hjk hk2
        · rw [hstate2]
          exact getD_set_self t.state ii SlotState.OCCUPIED SlotState.EMPTY
            (by rw [hsl]; exact hii_lt)
        · rw [hkeys2]
          exact getD_set_self t.keys ii (some key) none (by rw [hkl]; exact hii_lt)
      rw [get_found_eq hf t2 key hcapT ii (by rw [hprobe2])]
      rw [hvals2]
      show Except.ok ((t.vals.set ii (some value)).getD ii none) = _
      rw [getD_set_self t.vals ii (some value) none (by rw [hvl]; exact hii_lt)]

theorem insert_get_roundtrip_witness :
    (0 < tA.capacity ∧ 0 < (tA.insert hashZ "c" 3 (by decide)).1.capacity ∧ WF tA ∧
      (tA.insert hashZ "c" 3 (by decide)).2 = none) ∧
    ((tA.insert hashZ "c" 3 (by decide)).1.get hashZ "c" (by decide)).2 =
      Except.ok (some 3) :=
  ⟨⟨by decide, by decide, by decide, by decide⟩,
    insert_get_roundtrip hashZ tA "c" 3 (by decide) (by decide) (by decide) (by decide)⟩

lemma get_last_eq_of_head (t : Table) (i : Nat) (h : t.head = some i) :
    t.get_last = Except.ok (t.keys.getD i none, t.vals.getD i none) := by
  unfold Table.get_last
  rw [h]

/-- C6: every successful `insert key value` — update of an existing key or
creation of a new one — leaves the touched slot at the recency head, so
`get_last` immediately afterwards returns `(key, value)`. -/
theorem insert_most_recent (hf : String → Nat) (t : Table) (key : String)
    (value : Int) (hcap : 0 < t.capacity) (hWF : WF t)
    (hok : (t.insert hf key value hcap).2 = none) :
    ((t.insert hf key value hcap).1).get_last = Except.ok (some key, some value) := by
  obtain ⟨hc, hkl, hvl, hsl, hpl, hnl⟩ := hWF
  cases hp1 : (t.probe hf key hcap).1 with
  | some fi =>
    have hp : t.probe hf key hcap = (some fi, (t.probe hf key hcap).2) := by
      rw [probe_pair_eq, hp1]
    obtain ⟨_, hfi_lt, _, hkey, _⟩ := probe_found_facts hf t key hcap fi hp1
    rw [insert_found_eq hf t key value hcap fi _ hp]
    show (({ t with vals := t.vals.set fi (some value) } : Table).moveToHead fi).get_last = _
    rw [get_last_eq_of_head _ fi (moveToHead_head _ fi), moveToHead_keys, moveToHead_vals]
    show Except.ok (t.keys.getD fi none, (t.vals.set fi (some value)).getD fi none) = _
    rw [hkey, getD_set_self t.vals fi (some value) none (by rw [hvl]; exact hfi_lt)]
  | none =>
    cases hp2 : (t.probe hf key hcap).2 with
    | none =>
      have hp : t.probe hf key hcap = (none, none) := by
        rw [probe_pair_eq, hp1, hp2]
      rw [insert_full_eq hf t key value hcap hp] at hok
      cases hok
    | some ii =>
      have hp : t.probe hf key hcap = (none, some ii) := by
        rw [probe_pair_eq, hp1, hp2]
      obtain ⟨hii_lt, _, _, _, _, _⟩ := probe_ins_facts hf t key hcap ii hp
      rw [insert_new_eq hf t key value hcap ii hp]
      set t1 : Table := { t with keys := t.keys.set ii (some key),
                                 vals := t.vals.set ii (some value),
                                 state := t.state.set ii SlotState.OCCUPIED } with ht1
      show (({ t1.linkToHead ii with size := (t1.linkToHead ii).size + 1 } : Table)).get_last = _
      have hh : (({ t1.linkToHead ii with size := (t1.linkToHead ii).size + 1 } : Table)).head
          = some ii := by
        show (t1.linkToHead ii).head = some ii
        rw [linkToHead_head]
      rw [get_last_eq_of_head _ ii hh]
      show Except.ok ((t1.linkToHead ii).keys.getD ii none,
        (t1.linkToHead ii).vals.getD ii none) = _
      rw [linkToHead_keys, linkToHead_vals]
      show Except.ok ((t.keys.set ii (some key)).getD ii none,
        (t.vals.set ii (some value)).getD ii none) = _
      rw [getD_set_self t.keys ii (some key) none (by rw [hkl]; exact hii_lt),
        getD_set_self t.vals ii (some value) none (by rw [hvl]; exact hii_lt)]

theorem insert_most_recent_witness :
    (0 < tA.capacity ∧ WF tA ∧ (tA.insert hashZ "a" 9 (by decide)).2 = none) ∧
    ((tA.insert hashZ "a" 9 (by decide)).1).get_last = Except.ok (some "a", some 9) :=
  ⟨⟨by decide, by decide, by decide⟩,
    insert_most_recent hashZ tA "a" 9 (by decide) (by decide) (by decide)⟩

lemma insert_congr (hf : String → Nat) (key : String) (value : Int) (t₁ t₂ : Table)
    (h₁ : 0 < t₁.capacity) (h₂ : 0 < t₂.capacity) (he : t₁ = t₂) :
    t₁.insert hf key value h₁ = t₂.insert hf key value h₂ := by
  subst he
  rfl

lemma probe_proof_congr (hf : String → Nat) (key : String) (t₁ t₂ : Table)
    (h₁ : 0 < t₁.capacity) (h₂ : 0 < t₂.capacity) (he : t₁ = t₂) :
    t₁.probe hf key h₁ = t₂.probe hf key h₂ := by
  subst he
  rfl

lemma findable_probe (hf : String → Nat) (t : Table) (hF : Findable hf t)
    (i : Nat) (k : String) (hcap : 0 < t.capacity) (hi : i < t.capacity)
    (hocc : t.state.getD i SlotState.EMPTY = SlotState.OCCUPIED)
    (hk : t.keys.getD i none = some k) :
    t.probe hf k hcap = (some i, none) := by
  have hslot := hF i hi hocc
  unfold findSlotOk at hslot
  rw [hk] at hslot
  unfold Table.probe
  exact opt_get_eq _ _ _ hslot

lemma probe_miss_of_absent (hf : String → Nat) (t : Table) (k : String)
    (hcap : 0 < t.capacity)
    (habs : ∀ j, j < t.capacity →
      ¬(t.state.getD j SlotState.EMPTY = SlotState.OCCUPIED ∧ t.keys.getD j none = some k)) :
    (t.probe hf k hcap).1 = none := by
  cases hp1 : (t.probe hf k hcap).1 with
  | none => rfl
  | some fi =>
    obtain ⟨_, hlt, hocc, hk, _⟩ := probe_found_facts hf t k hcap fi hp1
    exact absurd (And.intro hocc hk) (habs fi hlt)

/-- C9: stale-slot safety — after `remove k` succeeds and a later insert of
a different key `k2` reuses the tombstoned slot, `get k` fails with
`keyNotFound`: the reused slot is never mistaken for `k`. -/
theorem stale_slot_safety (hf : String → Nat) (t : Table) (k k2 : String) (v2 : Int)
    (hcap : 0 < t.capacity)
    (hcap1 : 0 < (t.remove hf k hcap).1.capacity)
    (hcap2 : 0 < ((t.remove hf k hcap).1.insert hf k2 v2 hcap1).1.capacity)
    (hInv : TableInv t) (hne : k2 ≠ k) (fi : Nat)
    (hfi : (t.probe hf k hcap).1 = some fi)
    (hrm : (t.remove hf k hcap).2 = none)
    (hreuse : (t.remove hf k hcap).1.probe hf k2 hcap1 = (none, some fi)) :
    (((t.remove hf k hcap).1.insert hf k2 v2 hcap1).1.get hf k hcap2).2 =
      Except.error TableError.keyNotFound := by
  obtain ⟨hc, hkl, hvl, hsl, hpl, hnl⟩ := hInv.wf
  obtain ⟨_, hfi_lt, hfi_occ, hfi_key, _⟩ := probe_found_facts hf t k hcap fi hfi
  set T1 : Table :=
    ({ t.unlink fi with
       keys := (t.unlink fi).keys.set fi none,
       vals := (t.unlink fi).vals.set fi none,
       state := (t.unlink fi).state.set fi SlotState.DELETED,
       size := (t.unlink fi).size - 1 } : Table) with hT1
  have h1 : (t.remove hf k hcap).1 = T1 := by
    rw [remove_found_eq hf t k hcap fi hfi]
  have hT1keys : T1.keys = t.keys.set fi none := by
    rw [hT1]
    show (t.unlink fi).keys.set fi none = _
    rw [unlink_keys]
  have hT1state : T1.state = t.state.set fi SlotState.DELETED := by
    rw [hT1]
    show (t.unlink fi).state.set fi SlotState.DELETED = _
    rw [unlink_state]
  have hT1cap : T1.capacity = t.capacity := by
    rw [hT1]
    show (t.unlink fi).capacity = _
    rw [unlink_capacity]
  have hcapT1 : 0 < T1.capacity := by rw [hT1cap]; exact hc
  -- no slot of T1 holds k
  have habs1 : ∀ j, j < T1.capacity →
      ¬(T1.state.getD j SlotState.EMPTY = SlotState.OCCUPIED ∧
        T1.keys.getD j none = some k) := by
    intro j hj ⟨hjo, hjk⟩
    rw [hT1cap] at hj
    by_cases hjfi : j = fi
    · subst hjfi
      rw [hT1keys, getD_set_self t.keys j none none (by rw [hkl]; exact hj)] at hjk
      cases hjk
    · rw [hT1state, getD_set_ne _ _ _ (fun hx => hjfi hx.symm)] at hjo
      rw [hT1keys, getD_set_ne _ _ _ (fun hx => hjfi hx.symm)] at hjk
      exact hjfi (hInv.uniq j hj fi hfi_lt hjo hfi_occ (by rw [hjk, hfi_key]))
  -- the insert of k2 into T1
  have hreuse1 : T1.probe hf k2 hcapT1 = (none, some fi) := by
    rw [← probe_proof_congr hf k2 _ T1 hcap1 hcapT1 h1]
    exact hreuse
  set T2 : Table :=
    ({ ({ T1 with keys := T1.keys.set fi (some k2),
                  vals := T1.vals.set fi (some v2),
                  state := T1.state.set fi SlotState.OCCUPIED } : Table).linkToHead fi with
       size := (({ T1 with keys := T1.keys.set fi (some k2),
                           vals := T1.vals.set fi (some v2),
                           state := T1.state.set fi SlotState.OCCUPIED } : Table).linkToHead
         fi).size + 1 } : Table) with hT2
  have h2 : ((t.remove hf k hcap).1.insert hf k2 v2 hcap1).1 = T2 := by
    rw [insert_congr hf k2 v2 _ T1 hcap1 hcapT1 h1,
      insert_new_eq hf T1 k2 v2 hcapT1 fi hreuse1]
  have hT2keys : T2.keys = T1.keys.set fi (some k2) := by
    rw [hT2]
    show (({ T1 with keys := T1.keys.set fi (some k2),
                     vals := T1.vals.set fi (some v2),
                     state := T1.state.set fi SlotState.OCCUPIED } : Table).linkToHead fi).keys = _
    rw [linkToHead_keys]
  have hT2state : T2.state = T1.state.set fi SlotState.OCCUPIED := by
    rw [hT2]
    show (({ T1 with keys := T1.keys.set fi (some k2),
                     vals := T1.vals.set fi (some v2),
                     state := T1.state.set fi SlotState.OCCUPIED } : Table).linkToHead fi).state = _
    rw [linkToHead_state]
  have hT2cap : T2.capacity = T1.capacity := by
    rw [hT2]
    show (({ T1 with keys := T1.keys.set fi (some k2),
                     vals := T1.vals.set fi (some v2),
                     state := T1.state.set fi SlotState.OCCUPIED } : Table).linkToHead
      fi).capacity = _
    rw [linkToHead_capacity]
  have hcapT2 : 0 < T2.capacity := by rw [hT2cap]; exact hcapT1
  have habs2 : ∀ j, j < T2.capacity →
      ¬(T2.state.getD j SlotState.EMPTY = SlotState.OCCUPIED ∧
        T2.keys.getD j none = some k) := by
    intro j hj ⟨hjo, hjk⟩
    rw [hT2cap, hT1cap] at hj
    by_cases hjfi : j = fi
    · subst hjfi
      rw [hT2keys, getD_set_self T1.keys j (some k2) none
        (by rw [hT1keys, List.length_set, hkl]; exact hj)] at hjk
      exact hne (by injection hjk)
    · rw [hT2state, getD_set_ne _ _ _ (fun hx => hjfi hx.symm)] at hjo
      rw [hT2keys, getD_set_ne _ _ _ (fun hx => hjfi hx.symm)] at hjk
      exact habs1 j (by rw [hT1cap]; exact hj) ⟨hjo, hjk⟩
  rw [get_congr hf k _ T2 hcap2 hcapT2 h2,
    get_miss_eq hf T2 k hcapT2 (probe_miss_of_absent hf T2 k hcapT2 habs2)]

lemma tOne_inv : TableInv tOne :=
  ⟨by decide, by decide, by decide, by decide, by decide, by decide, by decide,
    ⟨[0], by decide⟩, by decide⟩

lemma tFull_inv : TableInv tFull :=
  ⟨by decide, by decide, by decide, by decide, by decide, by decide, by decide,
    ⟨[0], by decide⟩, by decide⟩

lemma tFull_invF : TableInvF hashZ tFull := ⟨tFull_inv, by decide⟩

lemma tA_inv : TableInv tA :=
  ⟨by decide, by decide, by decide, by decide, by decide, by decide, by decide,
    ⟨[1, 0], by decide⟩, by decide⟩

lemma tA_invF : TableInvF hashZ tA := ⟨tA_inv, by decide⟩

lemma tB_inv : TableInv tB :=
  ⟨by decide, by decide, by decide, by decide, by decide, by decide, by decide,
    ⟨[2, 1, 0], by decide⟩, by decide⟩

lemma tB_invF : TableInvF hashZ tB := ⟨tB_inv, by decide⟩

lemma tLost_inv : TableInv tLost :=
  ⟨by decide, by decide, by decide, by decide, by decide, by decide, by decide,
    ⟨[1], by decide⟩, by decide⟩

theorem stale_slot_safety_witness :
    (TableInv tOne ∧ "m" ≠ "k" ∧
      (tOne.probe hashZ "k" (by decide)).1 = some 0 ∧
      (tOne.remove hashZ "k" (by decide)).2 = none ∧
      (tOne.remove hashZ "k" (by decide)).1.probe hashZ "m" (by decide) = (none, some 0)) ∧
    (((tOne.remove hashZ "k" (by decide)).1.insert hashZ "m" 5 (by decide)).1.get hashZ "k"
        (by decide)).2 = Except.error TableError.keyNotFound :=
  ⟨⟨tOne_inv, by decide, by decide, by decide, by decide⟩,
    stale_slot_safety hashZ tOne "k" "m" 5 (by decide) (by decide) (by decide) tOne_inv
      (by decide) 0 (by decide) (by decide) (by decide)⟩

/-- C10: for every valid table in which key `k` is present, `insert k v`
succeeds (taking the update path) and leaves `size` unchanged — even when
the table is saturated; and a `TableFull` failure can only happen for a key
that is not present. -/
theorem insert_present_succeeds (hf : String → Nat) (t : Table) (k : String) (v : Int)
    (hcap : 0 < t.capacity) (hIF : TableInvF hf t) :
    ((∃ j, j < t.capacity ∧ t.state.getD j SlotState.EMPTY = SlotState.OCCUPIED ∧
        t.keys.getD j none = some k) →
      (t.insert hf k v hcap).2 = none ∧ (t.insert hf k v hcap).1.size = t.size) ∧
    ((t.insert hf k v hcap).2 = some TableError.tableFull →
      ¬∃ j, j < t.capacity ∧ t.state.getD j SlotState.EMPTY = SlotState.OCCUPIED ∧
        t.keys.getD j none = some k) := by
  constructor
  · rintro ⟨j, hj, hocc, hk⟩
    have hp := findable_probe hf t hIF.findable j k hcap hj hocc hk
    rw [insert_found_eq hf t k v hcap j none hp]
    refine ⟨rfl, ?_⟩
    show (({ t with vals := t.vals.set j (some v) } : Table).moveToHead j).size = t.size
    rw [moveToHead_size]
  · intro herr
    rintro ⟨j, hj, hocc, hk⟩
    have hp := findable_probe hf t hIF.findable j k hcap hj hocc hk
    rw [insert_found_eq hf t k v hcap j none hp] at herr
    simp at herr

theorem insert_present_succeeds_witness :
    (TableInvF hashZ tFull ∧
      (∃ j, j < tFull.capacity ∧ tFull.state.getD j SlotState.EMPTY = SlotState.OCCUPIED ∧
        tFull.keys.getD j none = some "a")) ∧
    ((tFull.insert hashZ "a" 9 (by decide)).2 = none ∧
      (tFull.insert hashZ "a" 9 (by decide)).1.size = tFull.size) :=
  ⟨⟨tFull_invF, ⟨0, by decide, by decide, by decide⟩⟩,
    (insert_present_succeeds hashZ tFull "a" 9 (by decide) tFull_invF).1
      ⟨0, by decide, by decide, by decide⟩⟩

/-- C7: removing the key at the recency head promotes the next-most-recent
entry to `get_last`; removing a key that is neither head nor tail leaves
the relative recency order of the remaining entries unchanged (the list
`A ++ i :: B` becomes `A ++ B`). -/
theorem remove_recency (hf : String → Nat) (t : Table) (k : String)
    (hcap : 0 < t.capacity) (hIF : TableInvF hf t) (L : List Nat) (hL : RecOk t L) :
    (∀ i0 i1 rest, L = i0 :: i1 :: rest → t.keys.getD i0 none = some k →
      (t.remove hf k hcap).2 = none ∧
      ((t.remove hf k hcap).1).get_last =
        Except.ok (t.keys.getD i1 none, t.vals.getD i1 none)) ∧
    (∀ A fi B, L = A ++ fi :: B → A ≠ [] → B ≠ [] → t.keys.getD fi none = some k →
      (t.remove hf k hcap).2 = none ∧
      RecChain (t.remove hf k hcap).1 (A ++ B)) := by
  obtain ⟨hc, hkl, hvl, hsl, hpl, hnl⟩ := hIF.inv.wf
  obtain ⟨hch, hmemL, hmemO, hnd⟩ := hL
  constructor
  · intro i0 i1 rest hLeq hk0
    subst hLeq
    obtain ⟨hi0lt, hi0occ⟩ := hmemL i0 (List.mem_cons_self i0 _)
    have hp := findable_probe hf t hIF.findable i0 k hcap hi0lt hi0occ hk0
    have hp1 : (t.probe hf k hcap).1 = some i0 := by rw [hp]
    obtain ⟨hc0, hpv0, hrest⟩ := hch
    obtain ⟨hc1, _, _⟩ := hrest
    have hne01 : i0 ≠ i1 :=
      fun hx => (List.nodup_cons.mp hnd).1 (hx ▸ List.mem_cons_self i1 rest)
    rw [remove_found_eq hf t k hcap i0 hp1]
    refine ⟨rfl, ?_⟩
    have hhead : (({ t.unlink i0 with
        keys := (t.unlink i0).keys.set i0 none,
        vals := (t.unlink i0).vals.set i0 none,
        state := (t.unlink i0).state.set i0 SlotState.DELETED,
        size := (t.unlink i0).size - 1 } : Table)).head = some i1 := by
      show (t.unlink i0).head = some i1
      rw [unlink_head_pnone t i0 hpv0, hc1]
    rw [get_last_eq_of_head _ i1 hhead]
    show Except.ok (((t.unlink i0).keys.set i0 none).getD i1 none,
      ((t.unlink i0).vals.set i0 none).getD i1 none) = _
    rw [unlink_keys, unlink_vals, getD_set_ne _ _ _ hne01, getD_set_ne _ _ _ hne01]
  · intro A fi B hLeq hA hB hkfi
    subst hLeq
    have hfi_mem : fi ∈ A ++ fi :: B := List.mem_append_right A (List.mem_cons_self fi B)
    obtain ⟨hfilt, hfiocc⟩ := hmemL fi hfi_mem
    have hp := findable_probe hf t hIF.findable fi k hcap hfilt hfiocc hkfi
    have hp1 : (t.probe hf k hcap).1 = some fi := by rw [hp]
    rw [remove_found_eq hf t k hcap fi hp1]
    refine ⟨rfl, ?_⟩
    have hchain := unlink_chain t fi A B hch hnd
      (fun j hj => (hmemL j hj).1) ⟨hc, hkl, hvl, hsl, hpl, hnl⟩
    exact hchain

theorem remove_recency_witness :
    (TableInvF hashZ tB ∧ RecOk tB [2, 1, 0] ∧ tB.keys.getD 2 none = some "c" ∧
      tB.keys.getD 1 none = some "b" ∧ ([2] : List Nat) ≠ [] ∧ ([0] : List Nat) ≠ []) ∧
    ((tB.remove hashZ "c" (by decide)).2 = none ∧
      ((tB.remove hashZ "c" (by decide)).1).get_last =
        Except.ok (tB.keys.getD 1 none, tB.vals.getD 1 none)) ∧
    ((tB.remove hashZ "b" (by decide)).2 = none ∧
      RecChain (tB.remove hashZ "b" (by decide)).1 ([2] ++ [0])) :=
  ⟨⟨tB_invF, by decide, by decide, by decide, by decide, by decide⟩,
    (remove_recency hashZ tB "c" (by decide) tB_invF [2, 1, 0] (by decide)).1
      2 1 [0] rfl (by decide),
    (remove_recency hashZ tB "b" (by decide) tB_invF [2, 1, 0] (by decide)).2
      [2] 1 [0] rfl (by decide) (by decide) (by decide)⟩

lemma probeAux_congr (t₁ t₂ : Table) (hc : t₁.capacity = t₂.capacity)
    (hs : t₁.state = t₂.state) (hk : t₁.keys = t₂.keys) (key : String) (start : Nat) :
    ∀ fuel i ft, probeAux t₁ key start fuel i ft = probeAux t₂ key start fuel i ft := by
  intro fuel
  induction fuel with
  | zero => intro i ft; rfl
  | succ n ih =>
    intro i ft
    simp only [probeAux, hs, hk, hc]
    cases t₂.state.getD i SlotState.EMPTY with
    | EMPTY => rfl
    | OCCUPIED =>
      by_cases hkey : t₂.keys.getD i none = some key
      · simp only [if_pos hkey]
      · simp only [if_neg hkey]
        by_cases hstep : (if i + 1 = t₂.capacity then 0 else i + 1) = start
        · simp only [if_pos hstep]
        · simp only [if_neg hstep, ih]
    | DELETED =>
      by_cases hstep : (if i + 1 = t₂.capacity then 0 else i + 1) = start
      · simp only [if_pos hstep]
      · simp only [if_neg hstep, ih]

lemma probeAux_run_probe (hf : String → Nat) (t : Table) (key : String)
    (hcap : 0 < t.capacity) :
    probeAux t key (t.idx hf key) t.capacity (t.idx hf key) none =
      some (t.probe hf key hcap) := by
  rw [probeAux_run t key (t.idx hf key) (t.idx_lt hf key hcap) t.capacity (Nat.le_refl _),
    probe_eq_specLoop hf t key hcap]

lemma findSlotOk_of_probe (hf : String → Nat) (t : Table) (i : Nat) (k : String)
    (hcap : 0 < t.capacity) (hk : t.keys.getD i none = some k)
    (hp : t.probe hf k hcap = (some i, none)) : findSlotOk hf t i := by
  unfold findSlotOk
  rw [hk]
  show probeAux t k (t.idx hf k) t.capacity (t.idx hf k) none = some (some i, none)
  rw [probeAux_run_probe hf t k hcap, hp]

lemma getD_mem {α : Type} (l : List α) (i : Nat) (d : α) (h : i < l.length) :
    l.getD i d ∈ l := by
  rw [List.getD_eq_getElem?_getD, List.getElem?_eq_getElem h]
  exact List.getElem_mem h

lemma getD_replicate {α : Type} (n i : Nat) (a d : α) (h : i < n) :
    (List.replicate n a).getD i d = a := by
  rw [List.getD_eq_getElem?_getD, List.getElem?_replicate]
  simp [h]

lemma mem_middle_iff (x i : Nat) (A B : List Nat) :
    x ∈ A ++ i :: B ↔ x = i ∨ x ∈ A ++ B := by
  simp only [List.mem_append, List.mem_cons]
  tauto

lemma count_pos_of_occ (t : Table) (j : Nat) (hj : j < t.state.length)
    (hocc : t.state.getD j SlotState.EMPTY = SlotState.OCCUPIED) :
    0 < countOccupied t := by
  unfold countOccupied
  rw [List.countP_pos_iff]
  refine ⟨t.state.getD j SlotState.EMPTY, getD_mem t.state j SlotState.EMPTY hj, ?_⟩
  rw [hocc]
  rfl

lemma countOccupied_eq_zero_iff (t : Table) :
    countOccupied t = 0 ↔
      ∀ j, j < t.state.length →
        t.state.getD j SlotState.EMPTY ≠ SlotState.OCCUPIED := by
  unfold countOccupied
  rw [List.countP_eq_zero]
  constructor
  · intro h j hj hocc
    have hmem := getD_mem t.state j SlotState.EMPTY hj
    have := h _ hmem
    rw [hocc] at this
    exact this rfl
  · intro h s hs hp
    obtain ⟨j, hj, hjs⟩ := List.mem_iff_getElem.mp hs
    have hgd : t.state.getD j SlotState.EMPTY = s := by
      rw [List.getD_eq_getElem?_getD, List.getElem?_eq_getElem hj, hjs]
      rfl
    apply h j hj
    rw [hgd]
    exact beq_iff_eq.mp hp

lemma moveToHead_prev_length (t : Table) (i : Nat) :
    (t.moveToHead i).prev.length = t.prev.length := by
  unfold Table.moveToHead
  split
  · rfl
  · rw [linkToHead_prev_length, unlink_prev_length]

lemma moveToHead_next_length (t : Table) (i : Nat) :
    (t.moveToHead i).next.length = t.next.length := by
  unfold Table.moveToHead
  split
  · rfl
  · rw [linkToHead_next_length, unlink_next_length]

lemma probe_found_transfer (hf : String → Nat) (t t' : Table) (key : String)
    (hcap : 0 < t.capacity) (hcap' : 0 < t'.capacity) (hc : t'.capacity = t.capacity)
    (j : Nat) (hp : (t.probe hf key hcap).1 = some j)
    (hkeep : ∀ x, x < t.capacity → noStop t key x → noStop t' key x)
    (hj_occ : t'.state.getD j SlotState.EMPTY = SlotState.OCCUPIED)
    (hj_key : t'.keys.getD j none = some key) :
    t'.probe hf key hcap' = (some j, none) := by
  obtain ⟨_, hjlt, _, _, pre, post, hdec, hns⟩ := probe_found_facts hf t key hcap j hp
  apply probe_found_of_decomp hf t' key hcap' j pre post
  · rw [idx_congr hf t' t key hc, probePath_congr t' t _ hc]
    exact hdec
  · intro x hx
    have hx_path : x ∈ probePath t (t.idx hf key) := by
      rw [hdec]
      exact List.mem_append_left _ hx
    exact hkeep x (pathFrom_mem_lt t.capacity _ t.capacity x hcap hx_path) (hns x hx)
  · exact hj_occ
  · exact hj_key

lemma probe_finds_written (hf : String → Nat) (t t' : Table) (key : String)
    (hcap : 0 < t.capacity) (hcap' : 0 < t'.capacity) (hc : t'.capacity = t.capacity)
    (ii : Nat) (hp : t.probe hf key hcap = (none, some ii))
    (hsame : ∀ x, x < t.capacity → x ≠ ii →
      t'.state.getD x SlotState.EMPTY = t.state.getD x SlotState.EMPTY ∧
      t'.keys.getD x none = t.keys.getD x none)
    (hii_occ : t'.state.getD ii SlotState.EMPTY = SlotState.OCCUPIED)
    (hii_key : t'.keys.getD ii none = some key) :
    t'.probe hf key hcap' = (some ii, none) := by
  obtain ⟨hii_lt, _, pre, post, hdec, hpre⟩ := probe_ins_facts hf t key hcap ii hp
  have hii_pre : ii ∉ pre := by
    have hnd := probePath_nodup t (t.idx hf key) (t.idx_lt hf key hcap)
    rw [hdec] at hnd
    exact (nodup_split_middle pre ii post hnd).1
  apply probe_found_of_decomp hf t' key hcap' ii pre post
  · rw [idx_congr hf t' t key hc, probePath_congr t' t _ hc]
    exact hdec
  · intro x hx
    have hx_path : x ∈ probePath t (t.idx hf key) := by
      rw [hdec]
      exact List.mem_append_left _ hx
    have hxlt : x < t.capacity := pathFrom_mem_lt t.capacity _ t.capacity x hcap hx_path
    have hxii : x ≠ ii := fun he => hii_pre (he ▸ hx)
    obtain ⟨hxs, hxk⟩ := hsame x hxlt hxii
    obtain ⟨hxo, hxnk⟩ := hpre x hx
    constructor
    · rw [hxs, hxo]
      intro hcon
      cases hcon
    · rintro ⟨_, hk2⟩
      rw [hxk] at hk2
      exact hxnk hk2
  · exact hii_occ
  · exact hii_key

lemma get_fst (hf : String → Nat) (t : Table) (key : String) (hcap : 0 < t.capacity) :
    (t.get hf key hcap).1 = t := by
  unfold Table.get
  cases (t.probe hf key hcap).1 <;> rfl

/-- `remove` preserves the strengthened invariant. -/
lemma remove_preserves (hf : String → Nat) (t : Table) (k : String) (hcap : 0 < t.capacity)
    (hIF : TableInvF hf t) : TableInvF hf (t.remove hf k hcap).1 := by
  obtain ⟨hc, hkl, hvl, hsl, hpl, hnl⟩ := hIF.inv.wf
  cases hp1 : (t.probe hf k hcap).1 with
  | none =>
    rw [remove_miss_eq hf t k hcap hp1]
    exact hIF
  | some fi =>
    obtain ⟨hp, hfilt, hfiocc, hfikey, _⟩ := probe_found_facts hf t k hcap fi hp1
    set T1 : Table :=
      ({ t.unlink fi with
         keys := (t.unlink fi).keys.set fi none,
         vals := (t.unlink fi).vals.set fi none,
         state := (t.unlink fi).state.set fi SlotState.DELETED,
         size := (t.unlink fi).size - 1 } : Table) with hT1
    have hrm_eq : (t.remove hf k hcap).1 = T1 := by
      rw [remove_found_eq hf t k hcap fi hp1]
    rw [hrm_eq]
    have e_keys : T1.keys = t.keys.set fi none := by
      rw [hT1]
      show (t.unlink fi).keys.set fi none = _
      rw [unlink_keys]
    have e_vals : T1.vals = t.vals.set fi none := by
      rw [hT1]
      show (t.unlink fi).vals.set fi none = _
      rw [unlink_vals]
    have e_state : T1.state = t.state.set fi SlotState.DELETED := by
      rw [hT1]
      show (t.unlink fi).state.set fi SlotState.DELETED = _
      rw [unlink_state]
    have e_cap : T1.capacity = t.capacity := by
      rw [hT1]
      show (t.unlink fi).capacity = _
      rw [unlink_capacity]
    have e_size : T1.size = t.size - 1 := by
      rw [hT1]
      show (t.unlink fi).size - 1 = _
      rw [unlink_size]
    have hWFt : WF t := ⟨hc, hkl, hvl, hsl, hpl, hnl⟩
    obtain ⟨L, hch, hmemL, hmemO, hnd⟩ := hIF.inv.recency
    have hfi_mem : fi ∈ L := hmemO fi hfilt hfiocc
    obtain ⟨A, B, hLeq⟩ := List.append_of_mem hfi_mem
    subst hLeq
    obtain ⟨hfiA, hfiB, hndA, hndB, hdisjAB⟩ := nodup_split_middle A fi B hnd
    have hch1 : RecChain T1 (A ++ B) :=
      unlink_chain t fi A B hch hnd (fun j hj => (hmemL j hj).1) hWFt
    have hcount : countOccupied t = countOccupied T1 + 1 := by
      have hset := countP_set (fun s => s == SlotState.OCCUPIED) t.state fi
        SlotState.DELETED SlotState.EMPTY (by rw [hsl]; exact hfilt)
      rw [hfiocc] at hset
      simp only [show ((SlotState.OCCUPIED == SlotState.OCCUPIED) = true) from rfl,
        if_true] at hset
      unfold countOccupied
      rw [e_state]
      simp at hset
      omega
    have hsize_eq_t := hIF.inv.size_eq
    have hcount_pos : 0 < countOccupied t :=
      count_pos_of_occ t fi (by rw [hsl]; exact hfilt) hfiocc
    have hmem2 : ∀ j, j ∈ A ++ B → j < T1.capacity ∧
        T1.state.getD j SlotState.EMPTY = SlotState.OCCUPIED := by
      intro j hj
      have hjL : j ∈ A ++ fi :: B := (mem_middle_iff j fi A B).mpr (Or.inr hj)
      have hjfi : j ≠ fi := by
        intro hx
        subst hx
        rcases List.mem_append.mp hj with hja | hjb
        · exact hfiA hja
        · exact hfiB hjb
      obtain ⟨hjlt, hjocc⟩ := hmemL j hjL
      refine ⟨by rw [e_cap]; exact hjlt, ?_⟩
      rw [e_state, getD_set_ne _ _ _ (fun hx => hjfi hx.symm)]
      exact hjocc
    have hmem2r : ∀ j, j < T1.capacity →
        T1.state.getD j SlotState.EMPTY = SlotState.OCCUPIED → j ∈ A ++ B := by
      intro j hjlt hjocc
      rw [e_cap] at hjlt
      by_cases hjfi : j = fi
      · subst hjfi
        rw [e_state, getD_set_self t.state j SlotState.DELETED SlotState.EMPTY
          (by rw [hsl]; exact hjlt)] at hjocc
        cases hjocc
      · rw [e_state, getD_set_ne _ _ _ (fun hx => hjfi hx.symm)] at hjocc
        have := hmemO j hjlt hjocc
        rcases (mem_middle_iff j fi A B).mp this with hx | hx
        · exact absurd hx hjfi
        · exact hx
    refine ⟨⟨⟨?_, ?_, ?_, ?_, ?_, ?_⟩, ?_, ?_, ?_, ?_, ?_, ?_, ?_, ?_⟩, ?_⟩
    · rw [e_cap]; exact hc
    · rw [e_keys, List.length_set, e_cap, hkl]
    · rw [e_vals, List.length_set, e_cap, hvl]
    · rw [e_state, List.length_set, e_cap, hsl]
    · rw [e_cap, hT1]
      show (t.unlink fi).prev.length = t.capacity
      rw [unlink_prev_length, hpl]
    · rw [e_cap, hT1]
      show (t.unlink fi).next.length = t.capacity
      rw [unlink_next_length, hnl]
    · rw [e_size]
      omega
    · rw [e_size, e_cap]
      have hle := hIF.inv.size_le
      omega
    · rw [e_size]
      omega
    · intro i hi
      rw [e_cap] at hi
      by_cases hifi : i = fi
      · subst hifi
        rw [e_state, getD_set_self t.state i SlotState.DELETED SlotState.EMPTY
            (by rw [hsl]; exact hi),
          e_keys, getD_set_self t.keys i none none (by rw [hkl]; exact hi)]
        simp
      · rw [e_state, getD_set_ne _ _ _ (fun hx => hifi hx.symm),
          e_keys, getD_set_ne _ _ _ (fun hx => hifi hx.symm)]
        exact hIF.inv.key_iff i hi
    · intro i hi
      rw [e_cap] at hi
      by_cases hifi : i = fi
      · subst hifi
        rw [e_state, getD_set_self t.state i SlotState.DELETED SlotState.EMPTY
            (by rw [hsl]; exact hi),
          e_vals, getD_set_self t.vals i none none (by rw [hvl]; exact hi)]
        simp
      · rw [e_state, getD_set_ne _ _ _ (fun hx => hifi hx.symm),
          e_vals, getD_set_ne _ _ _ (fun hx => hifi hx.symm)]
        exact hIF.inv.val_iff i hi
    · intro i hi j hj hio hjo hkeq
      rw [e_cap] at hi hj
      by_cases hifi : i = fi
      · subst hifi
        rw [e_state, getD_set_self t.state i SlotState.DELETED SlotState.EMPTY
          (by rw [hsl]; exact hi)] at hio
        cases hio
      · by_cases hjfi : j = fi
        · subst hjfi
          rw [e_state, getD_set_self t.state j SlotState.DELETED SlotState.EMPTY
            (by rw [hsl]; exact hj)] at hjo
          cases hjo
        · rw [e_state, getD_set_ne _ _ _ (fun hx => hifi hx.symm)] at hio
          rw [e_state, getD_set_ne _ _ _ (fun hx => hjfi hx.symm)] at hjo
          rw [e_keys, getD_set_ne _ _ _ (fun hx => hifi hx.symm),
            getD_set_ne _ _ _ (fun hx => hjfi hx.symm)] at hkeq
          exact hIF.inv.uniq i hi j hj hio hjo hkeq
    · exact ⟨A ++ B, hch1, hmem2, hmem2r, (List.nodup_cons.mp (List.nodup_middle.mp hnd)).2⟩
    · constructor
      · rintro ⟨hh, _⟩
        cases hAB : A ++ B with
        | cons x rest =>
          rw [hAB] at hch1
          obtain ⟨hcx, _, _⟩ := hch1
          rw [hh] at hcx
          cases hcx
        | nil =>
          have hcz : countOccupied T1 = 0 := by
            rw [countOccupied_eq_zero_iff]
            intro j hjlen hjocc
            have hjlt : j < T1.capacity := by
              rw [e_cap, ← hsl]
              rw [e_state, List.length_set] at hjlen
              exact hjlen
            have := hmem2r j hjlt hjocc
            rw [hAB] at this
            cases this
          rw [e_size]
          omega
      · intro hs0
        rw [e_size] at hs0
        have hcz : countOccupied T1 = 0 := by omega
        cases hAB : A ++ B with
        | cons x rest =>
          exfalso
          have hocc := hmem2 x (by rw [hAB]; exact List.mem_cons_self x rest)
          have := count_pos_of_occ T1 x ?_ hocc.2
          · omega
          · rw [e_state, List.length_set, hsl, ← e_cap]
            exact hocc.1
        | nil =>
          rw [hAB] at hch1
          obtain ⟨ht', hh'⟩ := hch1
          exact ⟨hh'.symm, ht'⟩
    · intro i hi hiocc
      have hifi : i ≠ fi := by
        intro hx
        subst hx
        rw [e_state, getD_set_self t.state i SlotState.DELETED SlotState.EMPTY
          (by rw [hsl, ← e_cap]; exact hi)] at hiocc
        cases hiocc
      rw [e_cap] at hi
      rw [e_state, getD_set_ne _ _ _ (fun hx => hifi hx.symm)] at hiocc
      cases hkk : T1.keys.getD i none with
      | none =>
        rw [e_keys, getD_set_ne _ _ _ (fun hx => hifi hx.symm)] at hkk
        have := (hIF.inv.key_iff i hi).mp hiocc
        rw [hkk] at this
        cases this
      | some kk =>
        have hkk_old : t.keys.getD i none = some kk := by
          rw [e_keys, getD_set_ne _ _ _ (fun hx => hifi hx.symm)] at hkk
          exact hkk
        have hpold := findable_probe hf t hIF.findable i kk hcap hi hiocc hkk_old
        have hcapT1 : 0 < T1.capacity := by rw [e_cap]; exact hc
        have hpnew : T1.probe hf kk hcapT1 = (some i, none) := by
          apply probe_found_transfer hf t T1 kk hcap hcapT1 e_cap i (by rw [hpold])
          · intro x hxlt hns
            by_cases hxfi : x = fi
            · subst hxfi
              constructor
              · rw [e_state, getD_set_self t.state x SlotState.DELETED SlotState.EMPTY
                  (by rw [hsl]; exact hxlt)]
                intro hcon
                cases hcon
              · rw [e_state, getD_set_self t.state x SlotState.DELETED SlotState.EMPTY
                  (by rw [hsl]; exact hxlt)]
                rintro ⟨hcon, _⟩
                cases hcon
            · obtain ⟨hns1, hns2⟩ := hns
              constructor
              · rw [e_state, getD_set_ne _ _ _ (fun hx => hxfi hx.symm)]
                exact hns1
              · rw [e_state, getD_set_ne _ _ _ (fun hx => hxfi hx.symm),
                  e_keys, getD_set_ne _ _ _ (fun hx => hxfi hx.symm)]
                exact hns2
          · rw [e_state, getD_set_ne _ _ _ (fun hx => hifi hx.symm)]
            exact hiocc
          · rw [e_keys, getD_set_ne _ _ _ (fun hx => hifi hx.symm)]
            exact hkk_old
        exact findSlotOk_of_probe hf T1 i kk hcapT1
          (by rw [e_keys, getD_set_ne _ _ _ (fun hx => hifi hx.symm)]; exact hkk_old) hpnew

lemma findable_of_eq (hf : String → Nat) (t t' : Table) (hc : t'.capacity = t.capacity)
    (hs : t'.state = t.state) (hk : t'.keys = t.keys) (hF : Findable hf t) :
    Findable hf t' := by
  intro i hi hocc
  rw [hc] at hi
  rw [hs] at hocc
  have h := hF i hi hocc
  unfold findSlotOk at h ⊢
  rw [hk]
  cases hkk : t.keys.getD i none with
  | none => trivial
  | some kk =>
    simp only [hkk] at h
    show probeAux t' kk (t'.idx hf kk) t'.capacity (t'.idx hf kk) none = some (some i, none)
    rw [idx_congr hf t' t kk hc, hc, probeAux_congr t' t hc hs hk]
    exact h

/-- `insert` preserves the strengthened invariant. -/
lemma insert_preserves (hf : String → Nat) (t : Table) (k : String) (v : Int)
    (hcap : 0 < t.capacity) (hIF : TableInvF hf t) :
    TableInvF hf (t.insert hf k v hcap).1 := by
  obtain ⟨hc, hkl, hvl, hsl, hpl, hnl⟩ := hIF.inv.wf
  have hWFt : WF t := ⟨hc, hkl, hvl, hsl, hpl, hnl⟩
  cases hp1 : (t.probe hf k hcap).1 with
  | some fi =>
    have hp : t.probe hf k hcap = (some fi, (t.probe hf k hcap).2) := by
      rw [probe_pair_eq, hp1]
    obtain ⟨_, hfilt, hfiocc, hfikey, _⟩ := probe_found_facts hf t k hcap fi hp1
    set T1 : Table := ({ t with vals := t.vals.set fi (some v) } : Table) with hT1
    set T2 : Table := T1.moveToHead fi with hT2
    have hins_eq : (t.insert hf k v hcap).1 = T2 := by
      rw [insert_found_eq hf t k v hcap fi _ hp]
    rw [hins_eq]
    have e_keys : T2.keys = t.keys := by rw [hT2, moveToHead_keys]
    have e_state : T2.state = t.state := by rw [hT2, moveToHead_state]
    have e_vals : T2.vals = t.vals.set fi (some v) := by rw [hT2, moveToHead_vals]
    have e_cap : T2.capacity = t.capacity := by rw [hT2, moveToHead_capacity]
    have e_size : T2.size = t.size := by rw [hT2, moveToHead_size]
    have e_count : countOccupied T2 = countOccupied t := by
      unfold countOccupied
      rw [e_state]
    obtain ⟨L, hch, hmemL, hmemO, hnd⟩ := hIF.inv.recency
    have hfi_mem : fi ∈ L := hmemO fi hfilt hfiocc
    obtain ⟨A, B, hLeq⟩ := List.append_of_mem hfi_mem
    subst hLeq
    have hWF1 : WF T1 := by
      refine ⟨hc, hkl, ?_, hsl, hpl, hnl⟩
      show (t.vals.set fi (some v)).length = t.capacity
      rw [List.length_set, hvl]
    have hch2 : RecChain T2 (fi :: (A ++ B)) :=
      moveToHead_chain T1 fi A B hch hnd (fun j hj => (hmemL j hj).1) hWF1
    have hcount_pos : 0 < countOccupied t :=
      count_pos_of_occ t fi (by rw [hsl]; exact hfilt) hfiocc
    refine ⟨⟨⟨?_, ?_, ?_, ?_, ?_, ?_⟩, ?_, ?_, ?_, ?_, ?_, ?_, ?_, ?_⟩, ?_⟩
    · rw [e_cap]; exact hc
    · rw [e_keys, e_cap, hkl]
    · rw [e_vals, List.length_set, e_cap, hvl]
    · rw [e_state, e_cap, hsl]
    · rw [e_cap, hT2, moveToHead_prev_length]
      exact hpl
    · rw [e_cap, hT2, moveToHead_next_length]
      exact hnl
    · rw [e_size]; exact hIF.inv.size_nonneg
    · rw [e_size, e_cap]; exact hIF.inv.size_le
    · rw [e_size, e_count]; exact hIF.inv.size_eq
    · intro i hi
      rw [e_cap] at hi
      rw [e_state, e_keys]
      exact hIF.inv.key_iff i hi
    · intro i hi
      rw [e_cap] at hi
      rw [e_state, e_vals]
      by_cases hifi : i = fi
      · subst hifi
        rw [getD_set_self t.vals i (some v) none (by rw [hvl]; exact hi)]
        constructor
        · intro _; rfl
        · intro _
          by_cases hocc : t.state.getD i SlotState.EMPTY = SlotState.OCCUPIED
          · exact hocc
          · exact hfiocc
      · rw [getD_set_ne _ _ _ (fun hx => hifi hx.symm)]
        exact hIF.inv.val_iff i hi
    · intro i hi j hj hio hjo hkeq
      rw [e_cap] at hi hj
      rw [e_state] at hio hjo
      rw [e_keys] at hkeq
      exact hIF.inv.uniq i hi j hj hio hjo hkeq
    · refine ⟨fi :: (A ++ B), hch2, ?_, ?_, ?_⟩
      · intro j hj
        rcases List.mem_cons.mp hj with rfl | hj2
        · exact ⟨by rw [e_cap]; exact hfilt, by rw [e_state]; exact hfiocc⟩
        · have hjL : j ∈ A ++ fi :: B := (mem_middle_iff j fi A B).mpr (Or.inr hj2)
          obtain ⟨hjlt, hjocc⟩ := hmemL j hjL
          exact ⟨by rw [e_cap]; exact hjlt, by rw [e_state]; exact hjocc⟩
      · intro j hjlt hjocc
        rw [e_cap] at hjlt
        rw [e_state] at hjocc
        have := hmemO j hjlt hjocc
        rcases (mem_middle_iff j fi A B).mp this with rfl | hx
        · exact List.mem_cons_self j _
        · exact List.mem_cons_of_mem fi hx
      · exact List.nodup_middle.mp hnd
    · constructor
      · rintro ⟨hh, _⟩
        rw [hT2, moveToHead_head] at hh
        cases hh
      · intro hs0
        exfalso
        rw [e_size] at hs0
        have := hIF.inv.size_eq
        omega
    · apply findable_of_eq hf t T2 e_cap e_state e_keys
      exact hIF.findable
  | none =>
    cases hp2 : (t.probe hf k hcap).2 with
    | none =>
      have hp : t.probe hf k hcap = (none, none) := by
        rw [probe_pair_eq, hp1, hp2]
      have hins_eq : (t.insert hf k v hcap).1 = t := by
        rw [insert_full_eq hf t k v hcap hp]
      rw [hins_eq]
      exact hIF
    | some ii =>
      have hp : t.probe hf k hcap = (none, some ii) := by
        rw [probe_pair_eq, hp1, hp2]
      obtain ⟨hiilt, hiinocc, pre, post, hdec, hpre⟩ := probe_ins_facts hf t k hcap ii hp
      have habs : ∀ j, j < t.capacity →
          t.state.getD j SlotState.EMPTY = SlotState.OCCUPIED →
          t.keys.getD j none ≠ some k := by
        intro j hj hjocc hjk
        have := findable_probe hf t hIF.findable j k hcap hj hjocc hjk
        rw [hp] at this
        simp at this
      set T1 : Table := ({ t with keys := t.keys.set ii (some k),
                                  vals := t.vals.set ii (some v),
                                  state := t.state.set ii SlotState.OCCUPIED } : Table) with hT1
      set T2 : Table := ({ T1.linkToHead ii with size := (T1.linkToHead ii).size + 1 } : Table)
        with hT2
      have hins_eq : (t.insert hf k v hcap).1 = T2 := by
        rw [insert_new_eq hf t k v hcap ii hp]
      rw [hins_eq]
      have e_keys : T2.keys = t.keys.set ii (some k) := by
        rw [hT2]
        show (T1.linkToHead ii).keys = _
        rw [linkToHead_keys]
      have e_vals : T2.vals = t.vals.set ii (some v) := by
        rw [hT2]
        show (T1.linkToHead ii).vals = _
        rw [linkToHead_vals]
      have e_state : T2.state = t.state.set ii SlotState.OCCUPIED := by
        rw [hT2]
        show (T1.linkToHead ii).state = _
        rw [linkToHead_state]
      have e_cap : T2.capacity = t.capacity := by
        rw [hT2]
        show (T1.linkToHead ii).capacity = _
        rw [linkToHead_capacity]
      have e_size : T2.size = t.size + 1 := by
        rw [hT2]
        show (T1.linkToHead ii).size + 1 = _
        rw [linkToHead_size]
      have hcount : countOccupied T2 = countOccupied t + 1 := by
        have hset := countP_set (fun s => s == SlotState.OCCUPIED) t.state ii
          SlotState.OCCUPIED SlotState.EMPTY (by rw [hsl]; exact hiilt)
        have hold : ((t.state.getD ii SlotState.EMPTY == SlotState.OCCUPIED)) = false :=
          beq_eq_false_iff_ne.mpr hiinocc
        simp only [hold] at hset
        simp at hset
        unfold countOccupied
        rw [e_state]
        omega
      obtain ⟨L, hch, hmemL, hmemO, hnd⟩ := hIF.inv.recency
      have hiiL : ii ∉ L := by
        intro hx
        exact hiinocc (hmemL ii hx).2
      have hWF1 : WF T1 := by
        refine ⟨hc, ?_, ?_, ?_, hpl, hnl⟩
        · show (t.keys.set ii (some k)).length = _
          rw [List.length_set, hkl]
        · show (t.vals.set ii (some v)).length = _
          rw [List.length_set, hvl]
        · show (t.state.set ii SlotState.OCCUPIED).length = _
          rw [List.length_set, hsl]
      have hch2 : RecChain T2 (ii :: L) :=
        linkToHead_chain T1 ii L hch hiiL hiilt (fun j hj => (hmemL j hj).1) hnd hWF1
      refine ⟨⟨⟨?_, ?_, ?_, ?_, ?_, ?_⟩, ?_, ?_, ?_, ?_, ?_, ?_, ?_, ?_⟩, ?_⟩
      · rw [e_cap]; exact hc
      · rw [e_keys, List.length_set, e_cap, hkl]
      · rw [e_vals, List.length_set, e_cap, hvl]
      · rw [e_state, List.length_set, e_cap, hsl]
      · rw [e_cap, hT2]
        show (T1.linkToHead ii).prev.length = t.capacity
        rw [linkToHead_prev_length]
        exact hpl
      · rw [e_cap, hT2]
        show (T1.linkToHead ii).next.length = t.capacity
        rw [linkToHead_next_length]
        exact hnl
      · rw [e_size]
        have := hIF.inv.size_nonneg
        omega
      · rw [e_size, e_cap]
        have hle : countOccupied T2 ≤ T2.state.length := List.countP_le_length _
        rw [e_state, List.length_set, hsl] at hle
        have := hIF.inv.size_eq
        omega
      · rw [e_size, hcount]
        have := hIF.inv.size_eq
        push_cast
        omega
      · intro i hi
        rw [e_cap] at hi
        rw [e_state, e_keys]
        by_cases hii2 : i = ii
        · subst hii2
          rw [getD_set_self t.state i SlotState.OCCUPIED SlotState.EMPTY
              (by rw [hsl]; exact hi),
            getD_set_self t.keys i (some k) none (by rw [hkl]; exact hi)]
          simp
        · rw [getD_set_ne _ _ _ (fun hx => hii2 hx.symm),
            getD_set_ne _ _ _ (fun hx => hii2 hx.symm)]
          exact hIF.inv.key_iff i hi
      · intro i hi
        rw [e_cap] at hi
        rw [e_state, e_vals]
        by_cases hii2 : i = ii
        · subst hii2
          rw [getD_set_self t.state i SlotState.OCCUPIED SlotState.EMPTY
              (by rw [hsl]; exact hi),
            getD_set_self t.vals i (some v) none (by rw [hvl]; exact hi)]
          simp
        · rw [getD_set_ne _ _ _ (fun hx => hii2 hx.symm),
            getD_set_ne _ _ _ (fun hx => hii2 hx.symm)]
          exact hIF.inv.val_iff i hi
      · intro i hi j hj hio hjo hkeq
        rw [e_cap] at hi hj
        rw [e_state] at hio hjo
        rw [e_keys] at hkeq
        by_cases hii2 : i = ii
        · by_cases hjj2 : j = ii
          · rw [hii2, hjj2]
          · exfalso
            subst hii2
            rw [getD_set_ne _ _ _ (fun hx => hjj2 hx.symm)] at hjo
            rw [getD_set_self t.keys i (some k) none (by rw [hkl]; exact hi),
              getD_set_ne _ _ _ (fun hx => hjj2 hx.symm)] at hkeq
            exact habs j hj hjo hkeq.symm
        · by_cases hjj2 : j = ii
          · exfalso
            subst hjj2
            rw [getD_set_ne _ _ _ (fun hx => hii2 hx.symm)] at hio
            rw [getD_set_self t.keys j (some k) none (by rw [hkl]; exact hj),
              getD_set_ne _ _ _ (fun hx => hii2 hx.symm)] at hkeq
            exact habs i hi hio hkeq
          · rw [getD_set_ne _ _ _ (fun hx => hii2 hx.symm)] at hio
            rw [getD_set_ne _ _ _ (fun hx => hjj2 hx.symm)] at hjo
            rw [getD_set_ne _ _ _ (fun hx => hii2 hx.symm),
              getD_set_ne _ _ _ (fun hx => hjj2 hx.symm)] at hkeq
            exact hIF.inv.uniq i hi j hj hio hjo hkeq
      · refine ⟨ii :: L, hch2, ?_, ?_, ?_⟩
        · intro j hj
          rcases List.mem_cons.mp hj with rfl | hj2
          · refine ⟨by rw [e_cap]; exact hiilt, ?_⟩
            rw [e_state]
            exact getD_set_self t.state j SlotState.OCCUPIED SlotState.EMPTY
              (by rw [hsl]; exact hiilt)
          · obtain ⟨hjlt, hjocc⟩ := hmemL j hj2
            refine ⟨by rw [e_cap]; exact hjlt, ?_⟩
            have hjii : j ≠ ii := fun hx => hiiL (hx ▸ hj2)
            rw [e_state, getD_set_ne _ _ _ (fun hx => hjii hx.symm)]
            exact hjocc
        · intro j hjlt hjocc
          rw [e_cap] at hjlt
          by_cases hjii : j = ii
          · subst hjii
            exact List.mem_cons_self j _
          · rw [e_state, getD_set_ne _ _ _ (fun hx => hjii hx.symm)] at hjocc
            exact List.mem_cons_of_mem ii (hmemO j hjlt hjocc)
        · exact List.nodup_cons.mpr ⟨hiiL, hnd⟩
      · constructor
        · rintro ⟨hh, _⟩
          have : T2.head = some ii := by
            rw [hT2]
            show (T1.linkToHead ii).head = some ii
            rw [linkToHead_head]
          rw [this] at hh
          cases hh
        · intro hs0
          exfalso
          rw [e_size] at hs0
          have h1 := hIF.inv.size_eq
          have h2 := hIF.inv.size_nonneg
          omega
      · intro i hi hiocc
        have hcapT2 : 0 < T2.capacity := by rw [e_cap]; exact hc
        by_cases hii2 : i = ii
        · subst hii2
          have hkey2 : T2.keys.getD i none = some k := by
            rw [e_keys]
            exact getD_set_self t.keys i (some k) none (by rw [hkl]; exact hiilt)
          have hpnew : T2.probe hf k hcapT2 = (some i, none) := by
            apply probe_finds_written hf t T2 k hcap hcapT2 e_cap i hp
            · intro x hxlt hxii
              constructor
              · rw [e_state, getD_set_ne _ _ _ (fun hx => hxii hx.symm)]
              · rw [e_keys, getD_set_ne _ _ _ (fun hx => hxii hx.symm)]
            · rw [e_state]
              exact getD_set_self t.state i SlotState.OCCUPIED SlotState.EMPTY
                (by rw [hsl]; exact hiilt)
            · exact hkey2
          exact findSlotOk_of_probe hf T2 i k hcapT2 hkey2 hpnew
        · rw [e_cap] at hi
          rw [e_state, getD_set_ne _ _ _ (fun hx => hii2 hx.symm)] at hiocc
          cases hkk : T2.keys.getD i none with
          | none =>
            rw [e_keys, getD_set_ne _ _ _ (fun hx => hii2 hx.symm)] at hkk
            have := (hIF.inv.key_iff i hi).mp hiocc
            rw [hkk] at this
            cases this
          | some kk =>
            have hkk_old : t.keys.getD i none = some kk := by
              rw [e_keys, getD_set_ne _ _ _ (fun hx => hii2 hx.symm)] at hkk
              exact hkk
            have hkkne : kk ≠ k := by
              intro hx
              exact habs i hi hiocc (by rw [hkk_old, hx])
            have hpold := findable_probe hf t hIF.findable i kk hcap hi hiocc hkk_old
            have hpnew : T2.probe hf kk hcapT2 = (some i, none) := by
              apply probe_found_transfer hf t T2 kk hcap hcapT2 e_cap i (by rw [hpold])
              · intro x hxlt hns
                by_cases hxii : x = ii
                · subst hxii
                  constructor
                  · rw [e_state, getD_set_self t.state x SlotState.OCCUPIED SlotState.EMPTY
                      (by rw [hsl]; exact hxlt)]
                    intro hcon
                    cases hcon
                  · rintro ⟨_, hkcon⟩
                    rw [e_keys, getD_set_self t.keys x (some k) none
                      (by rw [hkl]; exact hxlt)] at hkcon
                    exact hkkne (by injection hkcon with h; exact h.symm)
                · obtain ⟨hns1, hns2⟩ := hns
                  constructor
                  · rw [e_state, getD_set_ne _ _ _ (fun hx => hxii hx.symm)]
                    exact hns1
                  · rw [e_state, getD_set_ne _ _ _ (fun hx => hxii hx.symm),
                      e_keys, getD_set_ne _ _ _ (fun hx => hxii hx.symm)]
                    exact hns2
              · rw [e_state, getD_set_ne _ _ _ (fun hx => hii2 hx.symm)]
                exact hiocc
              · rw [e_keys, getD_set_ne _ _ _ (fun hx => hii2 hx.symm)]
                exact hkk_old
            exact findSlotOk_of_probe hf T2 i kk hcapT2
              (by rw [e_keys, getD_set_ne _ _ _ (fun hx => hii2 hx.symm)]; exact hkk_old) hpnew

/-- `__init__` establishes the strengthened invariant. -/
lemma mk_invF (c : Int) (t' : Table) (hmk : mkTable c = Except.ok t') (hf : String → Nat) :
    TableInvF hf t' := by
  unfold mkTable at hmk
  by_cases hcle : c ≤ 0
  · rw [if_pos hcle] at hmk
    cases hmk
  · rw [if_neg hcle] at hmk
    injection hmk with hmk
    subst hmk
    have hn : 0 < c.toNat := by omega
    have hcz : countOccupied
        { capacity := c.toNat
          keys := List.replicate c.toNat none
          vals := List.replicate c.toNat none
          state := List.replicate c.toNat SlotState.EMPTY
          prev := List.replicate c.toNat none
          next := List.replicate c.toNat none
          head := none
          tail := none
          size := 0 } = 0 := by
      unfold countOccupied
      rw [List.countP_eq_zero]
      intro a ha
      rw [List.eq_of_mem_replicate ha]
      decide
    refine ⟨⟨⟨hn, by simp, by simp, by simp, by simp, by simp⟩,
      le_refl 0, by show (0 : Int) ≤ (c.toNat : Int); omega, by rw [hcz]; rfl, ?_, ?_, ?_, ?_, ?_⟩, ?_⟩
    · intro i hi
      rw [getD_replicate c.toNat i SlotState.EMPTY SlotState.EMPTY hi,
        getD_replicate c.toNat i none none hi]
      simp
    · intro i hi
      rw [getD_replicate c.toNat i SlotState.EMPTY SlotState.EMPTY hi,
        getD_replicate c.toNat i none none hi]
      simp
    · intro i hi j hj hio _ _
      rw [getD_replicate c.toNat i SlotState.EMPTY SlotState.EMPTY hi] at hio
      cases hio
    · refine ⟨[], ⟨rfl, rfl⟩, by simp, ?_, by simp⟩
      intro i hi hocc
      rw [getD_replicate c.toNat i SlotState.EMPTY SlotState.EMPTY hi] at hocc
      cases hocc
    · simp
    · intro i hi hocc
      rw [getD_replicate c.toNat i SlotState.EMPTY SlotState.EMPTY hi] at hocc
      cases hocc

/-- Fresh table produced by `mkTable 2`, for the C2 witness. -/
def tFresh : Table :=
  { capacity := 2
    keys := List.replicate 2 none
    vals := List.replicate 2 none
    state := List.replicate 2 SlotState.EMPTY
    prev := List.replicate 2 none
    next := List.replicate 2 none
    head := none
    tail := none
    size := 0 }

/-- C2 counterexample: the invariant exactly as the spec lists it is not
preserved by `insert`.  `tLost` satisfies every listed clause, yet key "k"
is not reachable by its own probe (it sits at slot 1 while slot 0, its hash
slot, is EMPTY); inserting "k" again then succeeds into slot 0, after which
two OCCUPIED slots hold the same live key, violating the "each live key
occupies exactly one slot" clause. -/
theorem insert_breaks_spec_invariant :
    TableInv tLost ∧
    (tLost.insert hashZ "k" 2 (by decide)).2 = none ∧
    ¬ TableInv (tLost.insert hashZ "k" 2 (by decide)).1 := by
  refine ⟨tLost_inv, by decide, fun h => ?_⟩
  exact absurd (h.uniq 0 (by decide) 1 (by decide) (by decide) (by decide) (by decide))
    (by decide)

/-- C2 (amended): construction establishes, and every state-returning
public operation preserves, the data-model invariant strengthened with
findability (every OCCUPIED slot is located by a probe for its own key) —
the clause the counterexample `insert_breaks_spec_invariant` shows is
needed.  `TableInvF` contains all the clauses the claim lists: size
bounds, size = number of OCCUPIED slots, key/value present iff OCCUPIED,
each live key in exactly one slot, the recency list holding exactly the
OCCUPIED slots once each from head to tail, and head = tail = none iff the
table is empty.  `getMostRecent`, `getLeastRecent` and `items` take no
table state anywhere: they are read-only queries of the model. -/
theorem public_ops_preserve_invariant :
    (∀ (c : Int) (t : Table), mkTable c = Except.ok t → ∀ hf, TableInvF hf t) ∧
    (∀ (hf : String → Nat) (t : Table) (hcap : 0 < t.capacity) (k : String) (v : Int),
      TableInvF hf t →
        TableInvF hf (t.insert hf k v hcap).1 ∧
        TableInvF hf (t.remove hf k hcap).1 ∧
        TableInvF hf (t.get hf k hcap).1) :=
  ⟨fun c t hmk hf => mk_invF c t hmk hf,
   fun hf t hcap k v hIF =>
     ⟨insert_preserves hf t k v hcap hIF, remove_preserves hf t k hcap hIF,
      by rw [get_fst]; exact hIF⟩⟩

theorem public_ops_preserve_invariant_witness :
    (mkTable 2 = Except.ok tFresh ∧ TableInvF hashZ tA ∧ 0 < tA.capacity) ∧
    (TableInvF hashZ tFresh ∧
      (TableInvF hashZ (tA.insert hashZ "a" 7 (by decide)).1 ∧
        TableInvF hashZ (tA.remove hashZ "a" (by decide)).1 ∧
        TableInvF hashZ (tA.get hashZ "a" (by decide)).1)) :=
  ⟨⟨rfl, tA_invF, by decide⟩,
    ⟨public_ops_preserve_invariant.1 2 tFresh rfl hashZ,
      public_ops_preserve_invariant.2 hashZ tA (by decide) "a" 7 tA_invF⟩⟩
